import Mathlib

/-!
Verification of the UpUpUp monitoring platform (worker runner, server hook
manager, sqlite retention, metrics freshness) against its natural-language
specification.  Every definition in this file is a shallow embedding of a
function of the Go source; time instants and durations are modelled as `Int`
(nanoseconds, with `0` standing for Go's zero `time.Time`), Go slices as
`List`, and Go maps with zero-value lookup as total functions with a default.
-/

namespace UpUpUp

/-! ## Configuration data model (worker `config` package) -/

/-- Model of `config.NullableDuration`: distinguishes zero from unset durations. -/
structure NullableDuration where
  duration : Int
  set : Bool
deriving DecidableEq, Repr

/-- Model of `config.FailureRatioThreshold` (`window`, `fail_count`, both Go `int`). -/
structure FailureRatioThreshold where
  window : Int
  failCount : Int
deriving DecidableEq, Repr

/-- Model of `config.Thresholds`. -/
structure Thresholds where
  failureRatioCfg : Option FailureRatioThreshold
deriving DecidableEq, Repr

/-- Model of `config.CheckSchedule` (per-check overrides). -/
structure CheckSchedule where
  interval : Option NullableDuration
  timeout : Option NullableDuration
  retries : Option Int
  backoff : Option NullableDuration
deriving DecidableEq, Repr

/-- Model of `config.NotificationOverride`. -/
structure NotificationOverride where
  initialNotifiers : List String
deriving DecidableEq, Repr

/-- Model of `config.CheckNotification`. -/
structure CheckNotification where
  route : String
  overrides : Option NotificationOverride
deriving DecidableEq, Repr

/-- Model of `config.MetricThreshold` of the worker metrics check.  The numeric
payload (`value`, float64) is omitted: threshold evaluation is abstracted by
an evaluator parameter in `runMetrics`, so only the list structure matters. -/
structure MetricThreshold where
  name : String
  op : String
  labels : List (String × String)
deriving DecidableEq, Repr

/-- Model of `config.MetricsSpec` of the worker metrics check (the `computed` map is
consumed only inside the abstracted threshold evaluator). -/
structure MetricsSpec where
  nodeID : String
  maxAge : Option NullableDuration
  thresholds : List MetricThreshold
deriving DecidableEq, Repr

/-- Model of `config.CheckConfig`, restricted to the fields read by the functions
verified here (probe-protocol fields such as `request`, `assertions`,
`record_type` are never consulted by the scheduler/notification code). -/
structure CheckConfig where
  id : String
  name : String
  target : String
  schedule : Option CheckSchedule
  thresholds : Thresholds
  notifications : CheckNotification
  metrics : Option MetricsSpec
deriving DecidableEq, Repr

/-- Model of `config.PolicyStage` (`after`, optional `every`, notifier ids). -/
structure PolicyStage where
  after : Int
  every : Option NullableDuration
  notifiers : List String
deriving DecidableEq, Repr

/-- Model of `config.NotificationPolicy`. -/
structure NotificationPolicy where
  id : String
  stages : List PolicyStage
  resolveNotifiers : List String
deriving DecidableEq, Repr

/-- Model of `config.ServiceDefault` (the duration-valued fields, as nanoseconds). -/
structure ServiceDefault where
  interval : Int
  timeout : Int
  retries : Int
  backoff : Int
deriving DecidableEq, Repr

/-! ## Worker runner: failure history and threshold (runner.go) -/

/-- Model of `checkState.appendHistory`: append the newest outcome and keep only the
last `max` entries when `max > 0`. -/
def appendHistory (history : List Bool) (failed : Bool) (max : Int) : List Bool :=
  let h := history ++ [failed]
  if 0 < max ∧ max < (h.length : Int) then h.drop (h.length - max.toNat) else h

/-- Model of `Runner.windowSize`: the history bound for a check — the configured
failure-ratio window when positive, else 10. -/
def windowSize (check : CheckConfig) : Int :=
  match check.thresholds.failureRatioCfg with
  | some th => if 0 < th.window then th.window else 10
  | none => 10

/-- Model of `Runner.thresholdBreached`: empty history is healthy; without a
failure-ratio threshold the newest outcome decides; otherwise count failures
in the last `window` entries (clamped to the history length, and replaced by
the history length when non-positive) and compare with `fail_count`. -/
def thresholdBreached (check : CheckConfig) (history : List Bool) : Bool :=
  if history.isEmpty then false
  else
    match check.thresholds.failureRatioCfg with
    | none => history.getLastD false
    | some th =>
      let window : Int :=
        if th.window ≤ 0 ∨ (history.length : Int) < th.window then
          (history.length : Int)
        else th.window
      let failures := (history.drop (history.length - window.toNat)).count true
      th.failCount ≤ (failures : Int)

/-! ## String helpers (modelling `strings.TrimSpace`, `strings.ToLower`,
`strings.EqualFold` for the ASCII identifiers used by hooks and scopes). -/

/-- ASCII lower-casing of one character (model of Unicode `ToLower` on the
ASCII identifiers this code compares). -/
def asciiLowerChar (c : Char) : Char :=
  if 65 ≤ c.toNat ∧ c.toNat ≤ 90 then Char.ofNat (c.toNat + 32) else c

/-- Model of `strings.ToLower`. -/
def lowerString (s : String) : String := ⟨s.data.map asciiLowerChar⟩

/-- ASCII whitespace predicate (model of `unicode.IsSpace`). -/
def isSpaceChar (c : Char) : Bool := c = ' ' || c = '\t' || c = '\n' || c = '\r'

/-- Model of `strings.TrimSpace`. -/
def trimString (s : String) : String :=
  ⟨((s.data.dropWhile isSpaceChar).reverse.dropWhile isSpaceChar).reverse⟩

/-- Model of `strings.EqualFold` (ASCII case folding). -/
def equalFold (a b : String) : Bool := lowerString a == lowerString b

/-! ## Hook executions (worker `storage.HookExecution`) -/

/-- Model of `storage.HookExecution`, the persisted hook row as read by the worker
(`active_until = none` models SQL NULL; times are Unix nanoseconds with `0`
for the zero time). -/
structure HookExecution where
  id : Int
  hookID : String
  kind : String
  scope : String
  targetIDs : List String
  requestedBy : String
  requestedFromIP : String
  requestedAt : Int
  activeUntil : Option Int
  untilFirstSuccess : Bool
  parameters : List (String × String)
  note : String
  status : String
deriving DecidableEq, Repr

/-- Model of `runner.targetMatches`: an empty target list matches nothing; otherwise
some entry, after trimming, is `"*"` or equals the (non-empty) candidate. -/
def targetMatches (targets : List String) (candidate : String) : Bool :=
  if targets.isEmpty then false
  else
    targets.any fun target =>
      let t := trimString target
      if t == "" then false
      else if t == "*" then true
      else candidate != "" && t == candidate

/-- Model of `runner.hookMatchesCheck`: dispatch on the normalized scope. -/
def hookMatchesCheck (hook : HookExecution) (check : CheckConfig) : Bool :=
  match lowerString (trimString hook.scope) with
  | "global" =>
    if hook.targetIDs.isEmpty then true
    else targetMatches hook.targetIDs "*" || targetMatches hook.targetIDs check.id
  | "check" => targetMatches hook.targetIDs check.id
  | "route" => targetMatches hook.targetIDs check.notifications.route
  | _ => targetMatches hook.targetIDs check.id

/-- Model of `runner.applicablePauseHooks`, applied to the active-hook list the cache
yields (after resume application): keep the `pause_notifications` hooks that
match the check.  The Go function returns `nil` for an empty result; both are
the empty list here. -/
def applicablePauseHooks (hooks : List HookExecution) (check : CheckConfig) :
    List HookExecution :=
  hooks.filter fun hook =>
    equalFold (trimString hook.kind) "pause_notifications" && hookMatchesCheck hook check

/-! ## Worker runner: notification state machine (runner.go) -/

/-- Model of `runner.stageNotificationState` (`LastSent = 0` models the zero time). -/
structure StageNotificationState where
  sent : Bool
  lastSent : Int
deriving DecidableEq, Repr

/-- Model of `runner.checkState`, the per-check in-memory state.  `stageState` is the
Go map with zero-value lookup, modelled as a total function; the fields
`LastResult`, `LastUpdated`, `LastError` are bookkeeping never read by the
notification logic and are omitted. -/
structure CheckState where
  history : List Bool
  failing : Bool
  firstFailure : Int
  stageState : Nat → StageNotificationState
  initialNotified : Bool

/-- The kind of a `Runner.dispatch` call site. -/
inductive DispatchKind
  | initial
  | escalation
  | resolve
deriving DecidableEq, Repr

/-- One `Runner.dispatch(ids, event)` call: the notifier ids it iterates and,
for escalations, the policy stage index that fired. -/
structure Dispatch where
  kind : DispatchKind
  stage : Option Nat
  notifiers : List String
deriving DecidableEq, Repr

/-- Model of `Runner.sendInitialNotifications`: fire the per-check initial-notifier
override once per failing episode, unless an active pause hook matches. -/
def sendInitialNotifications (hooks : List HookExecution) (check : CheckConfig)
    (state : CheckState) : CheckState × List Dispatch :=
  match check.notifications.overrides with
  | none => (state, [])
  | some ov =>
    if ov.initialNotifiers.isEmpty then (state, [])
    else if state.initialNotified then (state, [])
    else if ¬(applicablePauseHooks hooks check).isEmpty then (state, [])
    else ({ state with initialNotified := true },
          [⟨.initial, none, ov.initialNotifiers⟩])

/-- The escalation frequency of a stage: `stage.Every.Duration` when the
optional `every` is present, zero otherwise. -/
def everyOf (stage : PolicyStage) : Int :=
  match stage.every with
  | some e => e.duration
  | none => 0

/-- One iteration of the `sendEscalations` stage loop: given `now`, the
episode start and the stage's stored state, decide whether the stage fires
and what its stored state becomes. -/
def stageStep (now firstFailure : Int) (stage : PolicyStage)
    (ss : StageNotificationState) : StageNotificationState × Bool :=
  let elapsed := now - firstFailure
  if elapsed < stage.after then (ss, false)
  else if 0 < everyOf stage then
    if ss.lastSent = 0 ∨ everyOf stage ≤ now - ss.lastSent then (⟨true, now⟩, true)
    else (ss, false)
  else
    if ss.sent then (ss, false)
    else (⟨true, now⟩, true)

/-- The `sendEscalations` stage loop, translated stage by stage starting at
index `idx`. -/
def runStages (now firstFailure : Int) (stages : List PolicyStage)
    (st : Nat → StageNotificationState) (idx : Nat) :
    (Nat → StageNotificationState) × List Dispatch :=
  match stages with
  | [] => (st, [])
  | stage :: rest =>
    let step := stageStep now firstFailure stage (st idx)
    let st' := fun j => if j = idx then step.1 else st j
    let r := runStages now firstFailure rest st' (idx + 1)
    if step.2 then (r.1, ⟨.escalation, some idx, stage.notifiers⟩ :: r.2) else r

/-- Model of `Runner.sendEscalations`: look up the policy for the check's route, skip
everything when an active pause hook matches, otherwise walk the stages. -/
def sendEscalations (policies : String → Option NotificationPolicy)
    (hooks : List HookExecution) (now : Int) (check : CheckConfig)
    (state : CheckState) : CheckState × List Dispatch :=
  match policies check.notifications.route with
  | none => (state, [])
  | some policy =>
    if ¬(applicablePauseHooks hooks check).isEmpty then (state, [])
    else
      let (st, ds) := runStages now state.firstFailure policy.stages state.stageState 0
      ({ state with stageState := st }, ds)

/-- Model of `Runner.sendResolveNotifications`: dispatch the policy's resolve
notifiers (no pause-hook consultation in the source). -/
def sendResolveNotifications (policies : String → Option NotificationPolicy)
    (check : CheckConfig) : List Dispatch :=
  match policies check.notifications.route with
  | none => []
  | some policy => [⟨.resolve, none, policy.resolveNotifiers⟩]

/-- Model of `Runner.handleResult`: append the outcome to the history, decide
`now_failing` via the threshold, manage the failing-episode transition, and
emit the dispatches of this result.  `hooks` is the active-hook list the
cache yields; `now` stands for the wall clock of this update.  The
store-side `completePauseHooks` call on recovery mutates only hook rows and
emits no dispatch, so it does not appear in the dispatch list. -/
def handleResult (policies : String → Option NotificationPolicy)
    (hooks : List HookExecution) (now : Int) (check : CheckConfig)
    (state : CheckState) (success : Bool) : CheckState × List Dispatch :=
  let fail := !success
  let history := appendHistory state.history fail (windowSize check)
  let prevFailing := state.failing
  let nowFailing := thresholdBreached check history
  let state := { state with history := history }
  if nowFailing then
    let state :=
      if ¬prevFailing then
        { state with failing := true, firstFailure := now,
                     stageState := fun _ => ⟨false, 0⟩, initialNotified := false }
      else state
    let (state, d1) := sendInitialNotifications hooks check state
    let (state, d2) := sendEscalations policies hooks now check state
    (state, d1 ++ d2)
  else
    if prevFailing then
      let state := { state with failing := false }
      (state, sendResolveNotifications policies check)
    else (state, [])

/-! ## Worker runner: effective interval and hook cache (runner.go) -/

namespace Runner

/-- Worker `Runner.effectiveInterval`: the per-check override when set,
otherwise the service default — with no further fallback. -/
def effectiveInterval (defaults : ServiceDefault) (check : CheckConfig) : Int :=
  match check.schedule with
  | some s =>
    match s.interval with
    | some i => if i.set then i.duration else defaults.interval
    | none => defaults.interval
  | none => defaults.interval

end Runner

/-- The worker's in-memory active-hook cache (`hookCache`,
`hookCacheExpiry`; expiry `0` models the zero time). -/
structure HookCache where
  cache : List HookExecution
  expiry : Int
deriving DecidableEq, Repr

/-- Five seconds in nanoseconds (the hook-cache TTL). -/
def hookCacheTTL : Int := 5000000000

/-- Model of `Runner.fetchActiveHooks`: serve from the cache while it is fresh;
otherwise consult the store (`storeResult`), caching an empty set for five
seconds on error.  `hasStore` models `r.store == nil`; `wallNow` is the
`time.Now()` used for cache expiry. -/
def fetchActiveHooks (hasStore : Bool)
    (storeResult : Except String (List HookExecution)) (wallNow : Int)
    (st : HookCache) : HookCache × List HookExecution :=
  if ¬hasStore then (st, [])
  else if st.expiry ≠ 0 ∧ wallNow < st.expiry then (st, st.cache)
  else
    match storeResult with
    | .error _ => (⟨[], wallNow + hookCacheTTL⟩, [])
    | .ok hooks => (⟨hooks, wallNow + hookCacheTTL⟩, hooks)

/-! ## Server app: effective interval (server health/metrics handlers) -/

namespace App

/-- Server `App.effectiveInterval`: the per-check override when set,
otherwise the service default when positive, otherwise 60 seconds. -/
def effectiveInterval (serviceDefaults : ServiceDefault) (check : CheckConfig) : Int :=
  match check.schedule with
  | some s =>
    match s.interval with
    | some i =>
      if i.set then i.duration
      else if 0 < serviceDefaults.interval then serviceDefaults.interval
      else 60000000000
    | none =>
      if 0 < serviceDefaults.interval then serviceDefaults.interval
      else 60000000000
  | none =>
    if 0 < serviceDefaults.interval then serviceDefaults.interval
    else 60000000000

/-- The interval the server handlers actually use: both call sites of
`effectiveInterval` (per-check metrics rendering and health evaluation)
re-clamp a non-positive result to 60 seconds. -/
def intervalUsed (serviceDefaults : ServiceDefault) (check : CheckConfig) : Int :=
  let interval := effectiveInterval serviceDefaults check
  if interval ≤ 0 then 60000000000 else interval

end App

/-! ## Server hook manager (server/internal/hooks/manager.go) -/

/-- The `action` block of `config.HookConfig`, as consumed by the manager. -/
structure HookAction where
  kind : String
  scope : String
  targetIDs : List String
  duration : Option NullableDuration
  maxDuration : Option NullableDuration
  untilFirstSuccess : Bool
  parameters : List (String × String)
deriving DecidableEq, Repr

/-- Server `config.HookConfig` (fields consumed by `Manager.Invoke`). -/
structure HookConfig where
  id : String
  action : HookAction
  metadata : List (String × String)
deriving DecidableEq, Repr

/-- Model of `hooks.InvokeOptions`: runtime overrides carried by one invocation. -/
structure InvokeOptions where
  durationOverride : Option Int
  untilFirstSuccess : Option Bool
  note : String
  requestedBy : String
  requestedFromIP : String
  additionalMetadata : List (String × String)
deriving DecidableEq, Repr

/-- The manager's default `MaxDuration` (24 hours, set in `NewManager`). -/
def defaultMaxDuration : Int := 24 * 60 * 60000000000

/-- Model of `hooks.resolveDuration`: start from the config duration (when set), let
a runtime override replace it, cap at the max duration only when that max is
positive, and floor at zero. -/
def resolveDuration (hookCfg : HookConfig) (opts : InvokeOptions)
    (fallbackMax : Int) : Int :=
  let duration : Int :=
    match hookCfg.action.duration with
    | some d => if d.set then d.duration else 0
    | none => 0
  let duration : Int :=
    match opts.durationOverride with
    | some d => d
    | none => duration
  let maxDuration : Int :=
    match hookCfg.action.maxDuration with
    | some m => if m.set then m.duration else fallbackMax
    | none => fallbackMax
  let duration := if 0 < maxDuration ∧ maxDuration < duration then maxDuration else duration
  if duration < 0 then 0 else duration

/-- Assoc-list store for the Go parameter maps: set `k ↦ v`, replacing any
existing binding. -/
def setParam (m : List (String × String)) (k v : String) : List (String × String) :=
  if m.any (fun p => p.1 == k) then m.map (fun p => if p.1 == k then (k, v) else p)
  else m ++ [(k, v)]

/-- Lookup in the Go parameter-map model. -/
def getParam (m : List (String × String)) (k : String) : Option String :=
  (m.find? (fun p => p.1 == k)).map (·.2)

/-- The parameter merge of `Manager.Invoke`: action parameters, then hook
metadata without overriding, then the request metadata overriding. -/
def mergeParameters (cfg : HookConfig) (extra : List (String × String)) :
    List (String × String) :=
  let params := cfg.action.parameters
  let params := cfg.metadata.foldl
    (fun m kv => if (getParam m kv.1).isSome then m else setParam m kv.1 kv.2) params
  extra.foldl (fun m kv => setParam m kv.1 kv.2) params

/-- Model of `Manager.Invoke` (the pure part): resolve the duration, compute
`active_until`, combine the `until_first_success` flags (a request cannot
relax a config-required flag), merge parameters, and build the execution row
to be inserted with `status = "active"`.  `now` is the manager's
`time.Now().UTC()`; the row id is assigned by the store afterwards. -/
def invokeExecution (hookCfg : HookConfig) (opts : InvokeOptions) (now : Int)
    (fallbackMax : Int) : HookExecution :=
  let duration := resolveDuration hookCfg opts fallbackMax
  let activeUntil : Option Int := if 0 < duration then some (now + duration) else none
  let untilFirst :=
    match opts.untilFirstSuccess with
    | some b =>
      if hookCfg.action.untilFirstSuccess ∧ ¬b then hookCfg.action.untilFirstSuccess
      else b
    | none => hookCfg.action.untilFirstSuccess
  { id := 0
    hookID := hookCfg.id
    kind := hookCfg.action.kind
    scope := hookCfg.action.scope
    targetIDs := hookCfg.action.targetIDs
    requestedBy := opts.requestedBy
    requestedFromIP := opts.requestedFromIP
    requestedAt := now
    activeUntil := activeUntil
    untilFirstSuccess := untilFirst
    parameters := mergeParameters hookCfg opts.additionalMetadata
    note := opts.note
    status := "active" }

/-- The request body of `POST /api/hook/{id}` (`hookRequestPayload`):
`duration` is the parsed Go duration when the string field is non-empty. -/
structure HookRequestPayload where
  duration : Option Int
  durationSeconds : Option Int
  untilFirstSuccess : Option Bool
  note : String
  requestedBy : String
  metadata : List (String × String)
deriving DecidableEq, Repr

/-- The duration-override resolution of `App.handleHook`: the explicit
`duration` string wins over `duration_seconds`; absent both, no override. -/
def durationOverrideOf (payload : HookRequestPayload) : Option Int :=
  match payload.duration with
  | some d => some d
  | none => payload.durationSeconds.map (· * 1000000000)

/-! ## Worker sqlite store: retention (worker/internal/storage/sqlite.go)

The two tables touched by the retention claims are modelled as lists of rows
in insertion order; `nextId` models the autoincrement primary key, so ids in
`rows` are strictly increasing along the list.  Each record operation is one
Lean function, mirroring the single SQL transaction (insert + prune commit
together). -/

/-- Model of `storage.CheckRun`, the value inserted by `RecordCheckRun`. -/
structure CheckRun where
  checkID : String
  checkName : String
  success : Bool
  summary : String
  error : String
  latencyMs : Int
  occurredAt : Int
deriving DecidableEq, Repr

/-- One row of the `check_states` table. -/
structure CheckStateRow where
  id : Nat
  checkID : String
  checkName : String
  success : Bool
  summary : String
  error : String
  latencyMs : Int
  occurredAt : Int
deriving DecidableEq, Repr

/-- The `check_states` table. -/
structure CheckStatesTable where
  rows : List CheckStateRow
  nextId : Nat
deriving DecidableEq, Repr

/-- Model of `storage.NotificationLog`, the value inserted by `RecordNotification`. -/
structure NotificationLog where
  notifierID : String
  checkID : String
  checkName : String
  runID : String
  status : String
  severity : String
  summary : String
  labelsJson : String
  occurredAt : Int
deriving DecidableEq, Repr

/-- One row of the `notification_logs` table. -/
structure NotificationLogRow where
  id : Nat
  notifierID : String
  checkID : String
  checkName : String
  runID : String
  status : String
  severity : String
  summary : String
  labelsJson : String
  occurredAt : Int
deriving DecidableEq, Repr

/-- The `notification_logs` table. -/
structure NotificationLogsTable where
  rows : List NotificationLogRow
  nextId : Nat
deriving DecidableEq, Repr

/-- The retention limit applied by `NewStore`: the configured
`check_state_retention` when positive, else 30. -/
def effectiveCheckLimit (raw : Int) : Nat :=
  if raw ≤ 0 then 30 else raw.toNat

/-- The retention limit applied by `NewStore`: the configured
`notification_log_retention` when positive, else 100. -/
def effectiveNotificationLimit (raw : Int) : Nat :=
  if raw ≤ 0 then 100 else raw.toNat

/-- The `check_states` row inserted for a run, with the autoincrement id. -/
def insertedCheckRow (tbl : CheckStatesTable) (run : CheckRun) : CheckStateRow :=
  { id := tbl.nextId, checkID := run.checkID, checkName := run.checkName,
    success := run.success, summary := run.summary, error := run.error,
    latencyMs := run.latencyMs, occurredAt := run.occurredAt }

/-- Model of `Store.RecordCheckRun`: insert the run as a fresh row, then delete every
row of the same check id whose id is outside the `limit` newest — one
transaction.  The SQL subquery `SELECT id … ORDER BY id DESC LIMIT n` picks
the `n` largest ids of this check; since rows sit in insertion order with
strictly increasing ids, those are the ids of the last `n` entries of the
check's row list. -/
def recordCheckRun (limit : Nat) (tbl : CheckStatesTable) (run : CheckRun) :
    CheckStatesTable :=
  let rows := tbl.rows ++ [insertedCheckRow tbl run]
  let cidRows := rows.filter (fun r => r.checkID == run.checkID)
  let keepIds := (cidRows.drop (cidRows.length - limit)).map (·.id)
  { rows := rows.filter (fun r => r.checkID != run.checkID || keepIds.contains r.id),
    nextId := tbl.nextId + 1 }

/-- The `notification_logs` row inserted for a dispatch. -/
def insertedLogRow (tbl : NotificationLogsTable) (log : NotificationLog) :
    NotificationLogRow :=
  { id := tbl.nextId, notifierID := log.notifierID, checkID := log.checkID,
    checkName := log.checkName, runID := log.runID, status := log.status,
    severity := log.severity, summary := log.summary,
    labelsJson := log.labelsJson, occurredAt := log.occurredAt }

/-- Model of `Store.RecordNotification`: insert the log row, then delete every row
whose id is outside the `limit` newest, globally — one transaction. -/
def recordNotification (limit : Nat) (tbl : NotificationLogsTable)
    (log : NotificationLog) : NotificationLogsTable :=
  let rows := tbl.rows ++ [insertedLogRow tbl log]
  let keepIds := (rows.drop (rows.length - limit)).map (·.id)
  { rows := rows.filter (fun r => keepIds.contains r.id), nextId := tbl.nextId + 1 }

/-- The empty `check_states` table of a fresh store. -/
def emptyCheckStates : CheckStatesTable := ⟨[], 0⟩

/-- The empty `notification_logs` table of a fresh store. -/
def emptyNotificationLogs : NotificationLogsTable := ⟨[], 0⟩

/-- A sequence of committed `RecordCheckRun` transactions from a fresh
store. -/
def applyCheckRuns (limit : Nat) (runs : List CheckRun) : CheckStatesTable :=
  runs.foldl (recordCheckRun limit) emptyCheckStates

/-- A sequence of committed `RecordNotification` transactions from a fresh
store. -/
def applyNotifications (limit : Nat) (logs : List NotificationLog) :
    NotificationLogsTable :=
  logs.foldl (recordNotification limit) emptyNotificationLogs

/-! ## Worker metrics check (worker/internal/checks/metrics.go)

`runMetrics` is embedded with two parameters standing for external library
calls whose internals no claim depends on: `parse` for
`expfmt.TextParser.TextToMetricFamilies` (over an abstract family type
`Fam`) and `evalThreshold` for `evaluateMetricThreshold` (whose
computed-metric cache is a pure memoization and hence semantically
transparent).  The store lookup `LatestNodeMetrics` is the `loadResult`
parameter. -/

/-- Model of `checks.AssertionResult`. -/
structure AssertionResult where
  kind : String
  op : String
  path : String
  passed : Bool
  message : String
deriving DecidableEq, Repr

/-- The fields of `checks.Result` that `runMetrics` determines (timing and
metadata bookkeeping omitted). -/
structure MetricsResult where
  success : Bool
  error : Option String
  assertionResults : List AssertionResult
deriving DecidableEq, Repr

/-- A stored node snapshot (`storage.NodeMetrics`): payload plus ingestion
time (`0` models the zero time). -/
structure NodeSnapshot where
  payload : String
  ingestedAt : Int
deriving DecidableEq, Repr

/-- Model of `checks.runMetrics` (validation order as in the source): require a
store, a metrics spec, at least one threshold and a node id; load the
snapshot; when `max_age` is set and the snapshot is absent-in-time or stale,
emit the single freshness failure; otherwise parse the payload and evaluate
every threshold. -/
def runMetrics {Fam : Type} (parse : String → Except String Fam)
    (evalThreshold : Fam → MetricThreshold → AssertionResult)
    (hasStore : Bool) (now : Int) (cfg : CheckConfig)
    (loadResult : Except String (Option NodeSnapshot)) : MetricsResult :=
  if ¬hasStore then ⟨false, some "metrics store not configured", []⟩
  else
    match cfg.metrics with
    | none => ⟨false, some "metrics configuration missing", []⟩
    | some spec =>
      if spec.thresholds.isEmpty then
        ⟨false, some "no metrics thresholds configured", []⟩
      else
        let nodeID :=
          if trimString spec.nodeID ≠ "" then trimString spec.nodeID
          else trimString cfg.target
        if nodeID = "" then
          ⟨false, some "node id or target is required for metrics check", []⟩
        else
          match loadResult with
          | .error e => ⟨false, some ("load node metrics: " ++ e), []⟩
          | .ok none => ⟨false, some ("no metrics available for node " ++ nodeID), []⟩
          | .ok (some snapshot) =>
            let stale : Bool :=
              match spec.maxAge with
              | some ma =>
                ma.set && (snapshot.ingestedAt == 0
                  || decide (ma.duration < now - snapshot.ingestedAt))
              | none => false
            if stale then
              ⟨false, none,
               [⟨"freshness", "max_age", "", false, "metrics older than max_age"⟩]⟩
            else
              match parse snapshot.payload with
              | .error e => ⟨false, some ("parse metrics payload: " ++ e), []⟩
              | .ok families =>
                let results := spec.thresholds.map (evalThreshold families)
                ⟨results.all (·.passed), none, results⟩

/-! ## Claim C1: the failing decision -/

/-- The failing decision exactly as claim C1 words it: without a
failure-ratio threshold the newest outcome decides; with
`failure_ratio = {window: W, fail_count: K}` the check fails iff the last
`min(W, len(history))` recorded outcomes contain at least `K` failures. -/
def claimC1Decision (check : CheckConfig) (fail : Bool) (history : List Bool) : Bool :=
  match check.thresholds.failureRatioCfg with
  | none => fail
  | some th =>
    let m : Int := min th.window (history.length : Int)
    let failures := (history.drop (history.length - m.toNat)).count true
    th.failCount ≤ (failures : Int)

/-- The failing decision with the correction the code forces: a
non-positive configured window counts failures over the whole recorded
history instead of over `min(W, len(history))` entries. -/
def amendedC1Decision (check : CheckConfig) (fail : Bool) (history : List Bool) : Bool :=
  match check.thresholds.failureRatioCfg with
  | none => fail
  | some th =>
    let m : Int :=
      if th.window ≤ 0 then (history.length : Int)
      else min th.window (history.length : Int)
    let failures := (history.drop (history.length - m.toNat)).count true
    th.failCount ≤ (failures : Int)

/-- The function `appendHistory` always ends in the newest outcome. -/
theorem appendHistory_concat (h : List Bool) (f : Bool) (m : Int) :
    ∃ pre, appendHistory h f m = pre ++ [f] := by
  unfold appendHistory
  simp only []
  split
  · rename_i hc
    refine ⟨h.drop ((h ++ [f]).length - m.toNat), ?_⟩
    rw [List.drop_append_of_le_length]
    simp only [List.length_append, List.length_singleton]
    omega
  · exact ⟨h, rfl⟩

/-- C1: corrected. For every check and prior history, the failing decision
after an update agrees with the claim's formula amended at non-positive
windows: no threshold ⇒ newest outcome decides; `failure_ratio` with
`W ≥ 1` ⇒ at least `K` failures among the last `min(W, len(history))`
outcomes; `W ≤ 0` ⇒ at least `K` failures among the whole recorded
history. -/
theorem C1_failing_decision (check : CheckConfig) (history : List Bool) (fail : Bool) :
    thresholdBreached check (appendHistory history fail (windowSize check)) =
      amendedC1Decision check fail (appendHistory history fail (windowSize check)) := by
  obtain ⟨pre, hpre⟩ := appendHistory_concat history fail (windowSize check)
  rw [hpre]
  unfold thresholdBreached amendedC1Decision
  match hfr : check.thresholds.failureRatioCfg with
  | none =>
    simp [List.getLastD_concat]
  | some th =>
    have hne : (pre ++ [fail]).isEmpty = false := by
      simp [List.isEmpty_iff]
    rw [hne]
    simp only [Bool.false_eq_true, if_false]
    have hwin :
        (if th.window ≤ 0 ∨ ((pre ++ [fail]).length : Int) < th.window then
            ((pre ++ [fail]).length : Int)
          else th.window) =
        (if th.window ≤ 0 then ((pre ++ [fail]).length : Int)
          else min th.window ((pre ++ [fail]).length : Int)) := by
      split_ifs <;> omega
    rw [hwin]

/-- C1: counterexample to the claim as stated.  A check with
`failure_ratio = {window: 0, fail_count: 1}` whose first execution fails is
failing per the code (the whole history is counted), while the claim's
`min(W, len(history))` formula counts the last 0 outcomes and calls it
healthy. -/
theorem C1_claim_counterexample :
    let check : CheckConfig :=
      { id := "api-health", name := "api", target := "", schedule := none,
        thresholds := ⟨some ⟨0, 1⟩⟩,
        notifications := ⟨"default", none⟩, metrics := none }
    thresholdBreached check (appendHistory [] true (windowSize check)) = true ∧
      claimC1Decision check true (appendHistory [] true (windowSize check)) = false := by
  decide

/-! ## Claim C2: pause-hook suppression -/

/-- C2: corrected.  While an active pause hook matches the check, a result
update emits no initial and no escalation dispatch; the only dispatch that
can still occur is the resolve notification, which fires exactly at a
failing→healthy transition even though the pause is still active. -/
theorem C2_pause_suppression (policies : String → Option NotificationPolicy)
    (hooks : List HookExecution) (now : Int) (check : CheckConfig)
    (state : CheckState) (success : Bool)
    (hpause : applicablePauseHooks hooks check ≠ []) :
    (handleResult policies hooks now check state success).2 =
      if state.failing ∧
          thresholdBreached check
            (appendHistory state.history (!success) (windowSize check)) = false then
        sendResolveNotifications policies check
      else [] := by
  have hpb : (applicablePauseHooks hooks check).isEmpty = false := by
    simpa [List.isEmpty_iff] using hpause
  have hinit : ∀ st : CheckState,
      sendInitialNotifications hooks check st = (st, []) := by
    intro st
    unfold sendInitialNotifications
    match check.notifications.overrides with
    | none => rfl
    | some ov => simp [hpb]
  have hesc : ∀ st : CheckState,
      sendEscalations policies hooks now check st = (st, []) := by
    intro st
    unfold sendEscalations
    match policies check.notifications.route with
    | none => rfl
    | some policy => simp [hpb]
  by_cases hnf : thresholdBreached check
      (appendHistory state.history (!success) (windowSize check)) = true <;>
    by_cases hpf : state.failing = true <;>
      simp [handleResult, hnf, hpf, hinit, hesc, Bool.not_eq_true] at *

/-- A one-route policy table used by the C2 example instances. -/
def c2Policies : String → Option NotificationPolicy := fun route =>
  if route == "standard" then
    some { id := "standard", stages := [], resolveNotifiers := ["mail-ops"] }
  else none

/-- The check of the C2 example instances. -/
def c2Check : CheckConfig :=
  { id := "web-portal", name := "Web portal", target := "", schedule := none,
    thresholds := ⟨none⟩, notifications := ⟨"standard", none⟩, metrics := none }

/-- An active pause hook matching `c2Check` by id. -/
def c2PauseHook : HookExecution :=
  { id := 1, hookID := "pause-web", kind := "pause_notifications",
    scope := "check", targetIDs := ["web-portal"], requestedBy := "ops",
    requestedFromIP := "10.0.0.1", requestedAt := 0, activeUntil := none,
    untilFirstSuccess := false, parameters := [], note := "", status := "active" }

/-- A failing-episode state for `c2Check` just before recovery. -/
def c2State : CheckState :=
  { history := [true], failing := true, firstFailure := 0,
    stageState := fun _ => ⟨false, 0⟩, initialNotified := true }

/-- C2: counterexample to the claim as stated.  With an active pause hook
matching the check, a successful result that ends the failing episode still
emits the resolve dispatch — the pause does not suppress it. -/
theorem C2_claim_counterexample :
    applicablePauseHooks [c2PauseHook] c2Check ≠ [] ∧
      (handleResult c2Policies [c2PauseHook] 100 c2Check c2State true).2 =
        [⟨.resolve, none, ["mail-ops"]⟩] := by
  constructor
  · decide
  · decide

/-- C2: witness for `C2_pause_suppression` at a concrete paused update. -/
theorem C2_pause_suppression_witness :
    applicablePauseHooks [c2PauseHook] c2Check ≠ [] ∧
      (handleResult c2Policies [c2PauseHook] 200 c2Check c2State false).2 =
        (if c2State.failing ∧
            thresholdBreached c2Check
              (appendHistory c2State.history (!false) (windowSize c2Check)) = false then
          sendResolveNotifications c2Policies c2Check
        else []) :=
  ⟨by decide,
   C2_pause_suppression c2Policies [c2PauseHook] 200 c2Check c2State false (by decide)⟩

/-! ## Claim C3: per-stage escalation dispatch -/

/-- Placeholder stage for `List.getD` lookups. -/
def dummyStage : PolicyStage := ⟨0, none, []⟩

/-- The stage loop leaves indices outside `[idx, idx + stages.length)`
untouched. -/
theorem runStages_state_out (now ff : Int) (stages : List PolicyStage)
    (st : Nat → StageNotificationState) (idx j : Nat)
    (hj : j < idx ∨ idx + stages.length ≤ j) :
    (runStages now ff stages st idx).1 j = st j := by
  induction stages generalizing st idx with
  | nil => rfl
  | cons stage rest ih =>
    have hj' : j < idx + 1 ∨ (idx + 1) + rest.length ≤ j := by
      rcases hj with h | h
      · exact Or.inl (by omega)
      · right
        simp only [List.length_cons] at h
        omega
    have hne : j ≠ idx := by
      rcases hj with h | h
      · omega
      · simp [List.length_cons] at h; omega
    unfold runStages
    simp only []
    split
    · rw [ih _ _ hj']
      simp [hne]
    · rw [ih _ _ hj']
      simp [hne]

/-- The stage loop updates index `idx + k` according to `stageStep` on the
`k`-th stage and the incoming state at that index. -/
theorem runStages_state_at (now ff : Int) (stages : List PolicyStage)
    (st : Nat → StageNotificationState) (idx k : Nat)
    (hk : k < stages.length) :
    (runStages now ff stages st idx).1 (idx + k) =
      (stageStep now ff (stages.getD k dummyStage) (st (idx + k))).1 := by
  induction stages generalizing st idx k with
  | nil => simp at hk
  | cons stage rest ih =>
    match k with
    | 0 =>
      unfold runStages
      simp only []
      have hout :
          ∀ st' : Nat → StageNotificationState,
            (runStages now ff rest st' (idx + 1)).1 idx = st' idx := by
        intro st'
        exact runStages_state_out now ff rest st' (idx + 1) idx (Or.inl (by omega))
      split <;> simp [hout]
    | k + 1 =>
      have hk' : k < rest.length := by simpa [List.length_cons] using hk
      have harith : idx + (k + 1) = (idx + 1) + k := by omega
      unfold runStages
      simp only []
      have hne : (idx + 1) + k ≠ idx := by omega
      split
      · rw [harith, ih _ _ _ hk']
        simp [hne]
      · rw [harith, ih _ _ _ hk']
        simp [hne]

/-- Every dispatch the stage loop emits carries a stage index at or past
the starting index. -/
theorem runStages_stage_lb (now ff : Int) (stages : List PolicyStage)
    (st : Nat → StageNotificationState) (idx : Nat) (d : Dispatch)
    (hd : d ∈ (runStages now ff stages st idx).2) :
    ∃ j, idx ≤ j ∧ d.stage = some j := by
  induction stages generalizing st idx with
  | nil => simp [runStages] at hd
  | cons stage rest ih =>
    unfold runStages at hd
    simp only [] at hd
    split at hd
    · rcases List.mem_cons.mp hd with h | h
      · exact ⟨idx, le_refl idx, by simp [h]⟩
      · obtain ⟨j, hj, hdj⟩ := ih _ _ h
        exact ⟨j, by omega, hdj⟩
    · obtain ⟨j, hj, hdj⟩ := ih _ _ hd
      exact ⟨j, by omega, hdj⟩

/-- Membership of a stage-`idx + k` escalation dispatch in the stage-loop
output is decided by `stageStep` on that stage alone. -/
theorem runStages_mem (now ff : Int) (stages : List PolicyStage)
    (st : Nat → StageNotificationState) (idx k : Nat) (ns : List String)
    (hk : k < stages.length) :
    ((⟨.escalation, some (idx + k), ns⟩ : Dispatch) ∈
        (runStages now ff stages st idx).2) ↔
      ((stageStep now ff (stages.getD k dummyStage) (st (idx + k))).2 = true ∧
        ns = (stages.getD k dummyStage).notifiers) := by
  induction stages generalizing st idx k with
  | nil => simp at hk
  | cons stage rest ih =>
    match k with
    | 0 =>
      unfold runStages
      simp only []
      have hnot : ∀ st' : Nat → StageNotificationState,
          (⟨.escalation, some (idx + 0), ns⟩ : Dispatch) ∉
            (runStages now ff rest st' (idx + 1)).2 := by
        intro st' hmem
        obtain ⟨j, hj, hdj⟩ := runStages_stage_lb now ff rest st' (idx + 1) _ hmem
        simp at hdj
        omega
      split
      · rename_i hfired
        simp only [List.mem_cons]
        constructor
        · rintro (h | h)
          · refine ⟨by simpa using hfired, ?_⟩
            simpa using congrArg Dispatch.notifiers h
          · exact absurd h (hnot _)
        · rintro ⟨-, hns⟩
          left
          simp [hns]
      · rename_i hfired
        constructor
        · intro h
          exact absurd h (hnot _)
        · rintro ⟨h2, -⟩
          simp only [List.getD_cons_zero] at h2
          exact absurd h2 (by simpa using hfired)
    | k + 1 =>
      have hk' : k < rest.length := by simpa [List.length_cons] using hk
      have harith : idx + (k + 1) = (idx + 1) + k := by omega
      have hne : (idx + 1) + k ≠ idx := by omega
      unfold runStages
      simp only []
      have hih := ih (fun j =>
          if j = idx then (stageStep now ff stage (st idx)).1 else st j)
        (idx + 1) k hk'
      simp only [if_neg hne] at hih
      split
      · simp only [List.mem_cons]
        rw [harith, List.getD_cons_succ]
        constructor
        · rintro (h | h)
          · exfalso
            have := congrArg Dispatch.stage h
            simp at this
            omega
          · exact hih.mp h
        · intro h
          exact Or.inr (hih.mpr h)
      · rw [harith, List.getD_cons_succ]
        exact hih

/-- The stage loop dispatches a given stage at most once per call: the
count of stage-`idx + k` dispatches is one when `stageStep` fires and zero
otherwise. -/
theorem runStages_count (now ff : Int) (stages : List PolicyStage)
    (st : Nat → StageNotificationState) (idx k : Nat)
    (hk : k < stages.length) :
    ((runStages now ff stages st idx).2.countP
        (fun d => d.stage == some (idx + k))) =
      if (stageStep now ff (stages.getD k dummyStage) (st (idx + k))).2 then 1
      else 0 := by
  induction stages generalizing st idx k with
  | nil => simp at hk
  | cons stage rest ih =>
    have hzero : ∀ st' : Nat → StageNotificationState,
        ((runStages now ff rest st' (idx + 1)).2.countP
            (fun d => d.stage == some idx)) = 0 := by
      intro st'
      rw [List.countP_eq_zero]
      intro d hd
      obtain ⟨j, hj, hdj⟩ := runStages_stage_lb now ff rest st' (idx + 1) d hd
      simp [hdj]
      omega
    match k with
    | 0 =>
      unfold runStages
      simp only []
      split
      · rename_i hfired
        simp only [Nat.add_zero, List.countP_cons, List.getD_cons_zero]
        rw [hzero]
        simp [hfired]
      · rename_i hfired
        simp only [Nat.add_zero, List.getD_cons_zero]
        rw [hzero]
        simp only [if_neg hfired]
    | k + 1 =>
      have hk' : k < rest.length := by simpa [List.length_cons] using hk
      have harith : idx + (k + 1) = (idx + 1) + k := by omega
      have hne : (idx + 1) + k ≠ idx := by omega
      have hih := ih (fun j =>
          if j = idx then (stageStep now ff stage (st idx)).1 else st j)
        (idx + 1) k hk'
      simp only [if_neg hne] at hih
      unfold runStages
      simp only []
      split
      · simp only [List.countP_cons]
        rw [harith, List.getD_cons_succ, hih]
        have : (((⟨.escalation, some idx, stage.notifiers⟩ : Dispatch).stage ==
            some (idx + 1 + k))) = false := by
          simp
          omega
        rw [this]
        simp
      · rw [harith, List.getD_cons_succ]
        exact hih

/-- A failing episode as the escalation engine sees it: one
`sendEscalations` call per failing tick, threading the per-check state and
concatenating the dispatches. -/
def runEpisode (policies : String → Option NotificationPolicy)
    (hooks : List HookExecution) (check : CheckConfig)
    (times : List Int) (state : CheckState) : CheckState × List Dispatch :=
  match times with
  | [] => (state, [])
  | t :: rest =>
    let r := sendEscalations policies hooks t check state
    let r' := runEpisode policies hooks check rest r.1
    (r'.1, r.2 ++ r'.2)

/-- The call `sendEscalations` under a found policy and no matching pause hook is
exactly the stage loop. -/
theorem sendEscalations_eq (policies : String → Option NotificationPolicy)
    (policy : NotificationPolicy) (hooks : List HookExecution) (now : Int)
    (check : CheckConfig) (state : CheckState)
    (hpol : policies check.notifications.route = some policy)
    (hnopause : applicablePauseHooks hooks check = []) :
    sendEscalations policies hooks now check state =
      ({ state with stageState :=
          (runStages now state.firstFailure policy.stages state.stageState 0).1 },
       (runStages now state.firstFailure policy.stages state.stageState 0).2) := by
  unfold sendEscalations
  rw [hpol]
  simp [hnopause]

/-- A one-shot stage whose `sent` flag is already set never fires again
within the episode. -/
theorem episode_oneshot_sent (policies : String → Option NotificationPolicy)
    (policy : NotificationPolicy) (hooks : List HookExecution)
    (check : CheckConfig)
    (hpol : policies check.notifications.route = some policy)
    (hnopause : applicablePauseHooks hooks check = [])
    (i : Nat) (hi : i < policy.stages.length)
    (hone : everyOf (policy.stages.getD i dummyStage) ≤ 0)
    (times : List Int) (state : CheckState)
    (hsent : (state.stageState i).sent = true) :
    ((runEpisode policies hooks check times state).2.countP
        (fun d => d.stage == some i)) = 0 := by
  induction times generalizing state with
  | nil => rfl
  | cons t rest ih =>
    unfold runEpisode
    simp only []
    rw [List.countP_append]
    rw [sendEscalations_eq policies policy hooks t check state hpol hnopause]
    simp only []
    have hev : ¬(0 : Int) < everyOf (policy.stages.getD i dummyStage) := by omega
    have hstep :
        stageStep t state.firstFailure (policy.stages.getD i dummyStage)
          (state.stageState i) = (state.stageState i, false) := by
      unfold stageStep
      simp only []
      by_cases helapsed :
          t - state.firstFailure < (policy.stages.getD i dummyStage).after
      · rw [if_pos helapsed]
      · rw [if_neg helapsed, if_neg hev, if_pos hsent]
    have hcount := runStages_count t state.firstFailure policy.stages
      state.stageState 0 i hi
    rw [Nat.zero_add] at hcount
    have hstate := runStages_state_at t state.firstFailure policy.stages
      state.stageState 0 i hi
    rw [Nat.zero_add] at hstate
    have hnew :
        (((runStages t state.firstFailure policy.stages state.stageState 0).1) i).sent
          = true := by
      rw [hstate, hstep]
      exact hsent
    rw [hcount, hstep]
    rw [ih _ hnew]
    simp

/-- A one-shot stage starting with a clear `sent` flag fires exactly once
over the episode iff some tick has reached its delay, and never twice. -/
theorem episode_oneshot_count (policies : String → Option NotificationPolicy)
    (policy : NotificationPolicy) (hooks : List HookExecution)
    (check : CheckConfig)
    (hpol : policies check.notifications.route = some policy)
    (hnopause : applicablePauseHooks hooks check = [])
    (i : Nat) (hi : i < policy.stages.length)
    (hone : everyOf (policy.stages.getD i dummyStage) ≤ 0)
    (times : List Int) (state : CheckState)
    (hsent : (state.stageState i).sent = false) :
    ((runEpisode policies hooks check times state).2.countP
        (fun d => d.stage == some i)) =
      if times.any (fun t =>
          decide ((policy.stages.getD i dummyStage).after ≤ t - state.firstFailure))
      then 1 else 0 := by
  induction times generalizing state with
  | nil => rfl
  | cons t rest ih =>
    unfold runEpisode
    simp only []
    rw [List.countP_append]
    rw [sendEscalations_eq policies policy hooks t check state hpol hnopause]
    simp only []
    have hev : ¬(0 : Int) < everyOf (policy.stages.getD i dummyStage) := by omega
    have hcount := runStages_count t state.firstFailure policy.stages
      state.stageState 0 i hi
    rw [Nat.zero_add] at hcount
    have hstate := runStages_state_at t state.firstFailure policy.stages
      state.stageState 0 i hi
    rw [Nat.zero_add] at hstate
    by_cases helapsed :
        t - state.firstFailure < (policy.stages.getD i dummyStage).after
    · have hstep :
          stageStep t state.firstFailure (policy.stages.getD i dummyStage)
            (state.stageState i) = (state.stageState i, false) := by
        unfold stageStep
        simp only []
        rw [if_pos helapsed]
      have hnew :
          (((runStages t state.firstFailure policy.stages state.stageState 0).1) i).sent
            = false := by
        rw [hstate, hstep]
        exact hsent
      rw [hcount, hstep]
      have hihres := ih
        { state with stageState :=
            (runStages t state.firstFailure policy.stages state.stageState 0).1 }
        hnew
      rw [hihres]
      have hfalse :
          decide ((policy.stages.getD i dummyStage).after ≤ t - state.firstFailure)
            = false := decide_eq_false (by omega)
      simp only [List.any_cons, hfalse, Bool.false_or]
      simp
    · have hstep :
          stageStep t state.firstFailure (policy.stages.getD i dummyStage)
            (state.stageState i) = (⟨true, t⟩, true) := by
        unfold stageStep
        simp only []
        rw [if_neg helapsed, if_neg hev, if_neg (by simp [hsent])]
      have hnew :
          (((runStages t state.firstFailure policy.stages state.stageState 0).1) i).sent
            = true := by
        rw [hstate, hstep]
      rw [hcount, hstep]
      have hrest := episode_oneshot_sent policies policy hooks check hpol hnopause
        i hi hone rest
        { state with stageState :=
            (runStages t state.firstFailure policy.stages state.stageState 0).1 }
        hnew
      rw [hrest]
      have htrue :
          decide ((policy.stages.getD i dummyStage).after ≤ t - state.firstFailure)
            = true := decide_eq_true (by omega)
      simp only [List.any_cons, htrue, Bool.true_or]
      simp

/-- When one stage iteration fires, in claim vocabulary. -/
theorem stageStep_fired_iff (now ff : Int) (stage : PolicyStage)
    (ss : StageNotificationState) :
    (stageStep now ff stage ss).2 = true ↔
      (stage.after ≤ now - ff ∧
        (if 0 < everyOf stage then
          ss.lastSent = 0 ∨ everyOf stage ≤ now - ss.lastSent
        else ss.sent = false)) := by
  unfold stageStep
  simp only []
  by_cases h1 : now - ff < stage.after
  · rw [if_pos h1]
    refine iff_of_false (by simp) ?_
    rintro ⟨h2, -⟩
    omega
  · by_cases h2 : 0 < everyOf stage
    · by_cases h3 : ss.lastSent = 0 ∨ everyOf stage ≤ now - ss.lastSent
      · rw [if_neg h1, if_pos h2, if_pos h3]
        exact iff_of_true rfl ⟨by omega, by rw [if_pos h2]; exact h3⟩
      · rw [if_neg h1, if_pos h2, if_neg h3]
        refine iff_of_false (by simp) ?_
        rintro ⟨-, hc⟩
        rw [if_pos h2] at hc
        exact h3 hc
    · by_cases h4 : ss.sent = true
      · rw [if_neg h1, if_neg h2, if_pos h4]
        refine iff_of_false (by simp) ?_
        rintro ⟨-, hc⟩
        rw [if_neg h2] at hc
        simp [h4] at hc
      · rw [if_neg h1, if_neg h2, if_neg h4]
        exact iff_of_true rfl ⟨by omega, by rw [if_neg h2]; simpa using h4⟩

/-- The stored stage state after one iteration: `{sent := true,
last_sent := now}` exactly when the stage fires, untouched otherwise. -/
theorem stageStep_fst (now ff : Int) (stage : PolicyStage)
    (ss : StageNotificationState) :
    (stageStep now ff stage ss).1 =
      if stage.after ≤ now - ff ∧
          (if 0 < everyOf stage then
            ss.lastSent = 0 ∨ everyOf stage ≤ now - ss.lastSent
          else ss.sent = false)
      then ⟨true, now⟩ else ss := by
  by_cases hcond : stage.after ≤ now - ff ∧
      (if 0 < everyOf stage then
        ss.lastSent = 0 ∨ everyOf stage ≤ now - ss.lastSent
      else ss.sent = false)
  · rw [if_pos hcond]
    have hfired := (stageStep_fired_iff now ff stage ss).mpr hcond
    unfold stageStep at hfired ⊢
    simp only [] at hfired ⊢
    split at hfired
    · simp at hfired
    · split at hfired
      · split at hfired
        · rename_i h1 h2 h3
          rw [if_neg h1, if_pos h2, if_pos h3]
        · simp at hfired
      · split at hfired
        · simp at hfired
        · rename_i h1 h2 h4
          rw [if_neg h1, if_neg h2, if_neg h4]
  · rw [if_neg hcond]
    have hfired : (stageStep now ff stage ss).2 = false := by
      rw [← Bool.not_eq_true]
      intro h
      exact hcond ((stageStep_fired_iff now ff stage ss).mp h)
    unfold stageStep at hfired ⊢
    simp only [] at hfired ⊢
    split at hfired
    · rename_i h1
      rw [if_pos h1]
    · split at hfired
      · split at hfired
        · simp at hfired
        · rename_i h1 h2 h3
          rw [if_neg h1, if_pos h2, if_neg h3]
      · split at hfired
        · rename_i h1 h2 h4
          rw [if_neg h1, if_neg h2, if_pos h4]
        · simp at hfired

/-- C3: confirmed.  For every stage `i` of the matching route's policy,
with no pause hook in the way: (1) an update dispatches stage `i` iff
`elapsed = now − first_failure ≥ after` and — for `every > 0` — `last_sent`
is zero or `now − last_sent ≥ every`, or — one-shot — the `sent` flag is
clear; (2) firing records `{sent := true, last_sent := now}` and a
non-firing update leaves the stage state untouched; (3) a one-shot stage
starting an episode with a clear flag dispatches exactly once over the
episode iff some tick reaches its delay. -/
theorem C3_escalation_policy (policies : String → Option NotificationPolicy)
    (policy : NotificationPolicy) (hooks : List HookExecution)
    (check : CheckConfig)
    (hpol : policies check.notifications.route = some policy)
    (hnopause : applicablePauseHooks hooks check = [])
    (i : Nat) (hi : i < policy.stages.length) :
    (∀ (now : Int) (state : CheckState) (ns : List String),
      ((⟨.escalation, some i, ns⟩ : Dispatch) ∈
          (sendEscalations policies hooks now check state).2) ↔
        (ns = (policy.stages.getD i dummyStage).notifiers ∧
          (policy.stages.getD i dummyStage).after ≤ now - state.firstFailure ∧
          (if 0 < everyOf (policy.stages.getD i dummyStage) then
            (state.stageState i).lastSent = 0 ∨
              everyOf (policy.stages.getD i dummyStage) ≤
                now - (state.stageState i).lastSent
          else (state.stageState i).sent = false))) ∧
    (∀ (now : Int) (state : CheckState),
      (sendEscalations policies hooks now check state).1.stageState i =
        (if (policy.stages.getD i dummyStage).after ≤ now - state.firstFailure ∧
            (if 0 < everyOf (policy.stages.getD i dummyStage) then
              (state.stageState i).lastSent = 0 ∨
                everyOf (policy.stages.getD i dummyStage) ≤
                  now - (state.stageState i).lastSent
            else (state.stageState i).sent = false)
          then ⟨true, now⟩ else state.stageState i)) ∧
    (everyOf (policy.stages.getD i dummyStage) ≤ 0 →
      ∀ (times : List Int) (state : CheckState),
        (state.stageState i).sent = false →
        ((runEpisode policies hooks check times state).2.countP
            (fun d => d.stage == some i)) =
          (if times.any (fun t =>
              decide ((policy.stages.getD i dummyStage).after ≤
                t - state.firstFailure))
          then 1 else 0)) := by
  refine ⟨?_, ?_, ?_⟩
  · intro now state ns
    rw [sendEscalations_eq policies policy hooks now check state hpol hnopause]
    have hmem := runStages_mem now state.firstFailure policy.stages
      state.stageState 0 i ns hi
    rw [Nat.zero_add] at hmem
    rw [hmem, stageStep_fired_iff]
    constructor
    · rintro ⟨hf, hns⟩
      exact ⟨hns, hf⟩
    · rintro ⟨hns, hf⟩
      exact ⟨hf, hns⟩
  · intro now state
    rw [sendEscalations_eq policies policy hooks now check state hpol hnopause]
    have hstate := runStages_state_at now state.firstFailure policy.stages
      state.stageState 0 i hi
    rw [Nat.zero_add] at hstate
    show (runStages now state.firstFailure policy.stages state.stageState 0).1 i = _
    rw [hstate, stageStep_fst]
  · intro hone times state hsent
    exact episode_oneshot_count policies policy hooks check hpol hnopause
      i hi hone times state hsent

/-- The one-stage policy of the C3 witness instance. -/
def c3Policy : NotificationPolicy :=
  { id := "standard", stages := [⟨0, none, ["pager"]⟩], resolveNotifiers := [] }

/-- The policy table of the C3 witness instance. -/
def c3Policies : String → Option NotificationPolicy := fun route =>
  if route == "standard" then some c3Policy else none

/-- The check of the C3 witness instance. -/
def c3Check : CheckConfig :=
  { id := "db", name := "Database", target := "", schedule := none,
    thresholds := ⟨none⟩, notifications := ⟨"standard", none⟩, metrics := none }

/-- A fresh failing-episode state for the C3 witness instance. -/
def c3State : CheckState :=
  { history := [true], failing := true, firstFailure := 0,
    stageState := fun _ => ⟨false, 0⟩, initialNotified := false }

/-- C3: witness — the dispatch condition of stage 0 at a concrete tick. -/
theorem C3_escalation_policy_witness :
    ((⟨.escalation, some 0, ["pager"]⟩ : Dispatch) ∈
        (sendEscalations c3Policies [] 10 c3Check c3State).2) ↔
      (["pager"] = (c3Policy.stages.getD 0 dummyStage).notifiers ∧
        (c3Policy.stages.getD 0 dummyStage).after ≤ 10 - c3State.firstFailure ∧
        (if 0 < everyOf (c3Policy.stages.getD 0 dummyStage) then
          (c3State.stageState 0).lastSent = 0 ∨
            everyOf (c3Policy.stages.getD 0 dummyStage) ≤
              10 - (c3State.stageState 0).lastSent
        else (c3State.stageState 0).sent = false)) :=
  (C3_escalation_policy c3Policies c3Policy [] c3Check (by decide) rfl 0
    (by decide)).1 10 c3State ["pager"]

/-! ## Claim C4: hook scope and target matching -/

/-- Some target entry, after trimming, is the wildcard `"*"`. -/
def WildcardIn (targets : List String) : Prop :=
  ∃ t ∈ targets, trimString t = "*"

/-- The non-empty candidate appears among the trimmed target entries. -/
def TargetIn (targets : List String) (candidate : String) : Prop :=
  candidate ≠ "" ∧ ∃ t ∈ targets, trimString t = candidate

/-- Characterization of `targetMatches` in membership vocabulary. -/
theorem targetMatches_iff (targets : List String) (candidate : String) :
    targetMatches targets candidate = true ↔
      (WildcardIn targets ∨ TargetIn targets candidate) := by
  unfold targetMatches WildcardIn TargetIn
  by_cases hempty : targets.isEmpty
  · rw [if_pos hempty]
    have : targets = [] := by simpa [List.isEmpty_iff] using hempty
    subst this
    simp
  · rw [if_neg hempty]
    rw [List.any_eq_true]
    constructor
    · rintro ⟨t, ht, hp⟩
      simp only [] at hp
      by_cases h1 : trimString t == ""
      · rw [if_pos h1] at hp
        exact absurd hp (by simp)
      · rw [if_neg h1] at hp
        by_cases h2 : trimString t == "*"
        · exact Or.inl ⟨t, ht, by simpa using h2⟩
        · rw [if_neg h2] at hp
          have hp' : candidate ≠ "" ∧ trimString t = candidate := by
            simpa using hp
          exact Or.inr ⟨hp'.1, t, ht, hp'.2⟩
    · rintro (⟨t, ht, hstar⟩ | ⟨hc, t, ht, heq⟩)
      · refine ⟨t, ht, ?_⟩
        simp only []
        rw [if_neg (by simp [hstar]), if_pos (by simp [hstar])]
      · refine ⟨t, ht, ?_⟩
        simp only []
        have hne : ¬(trimString t == "") := by
          simp [heq]
          exact hc
        rw [if_neg hne]
        by_cases h2 : trimString t == "*"
        · rw [if_pos h2]
        · rw [if_neg h2]
          simp [heq, hc]

/-- C4: counterexample to the claim as stated.  A `global`-scoped hook with
the non-empty target list `["other-check"]` does not match the check
`web`, although the claim says scope `global` matches any check. -/
theorem C4_claim_counterexample :
    let hook : HookExecution :=
      { id := 7, hookID := "pause-all", kind := "pause_notifications",
        scope := "global", targetIDs := ["other-check"], requestedBy := "",
        requestedFromIP := "", requestedAt := 0, activeUntil := none,
        untilFirstSuccess := false, parameters := [], note := "",
        status := "active" }
    let check : CheckConfig :=
      { id := "web", name := "Web", target := "", schedule := none,
        thresholds := ⟨none⟩, notifications := ⟨"standard", none⟩,
        metrics := none }
    lowerString (trimString hook.scope) = "global" ∧
      hookMatchesCheck hook check = false := by
  decide

/-- C4: the claim amended at the `global` scope.  Scope `global` matches
any check only when `target_ids` is empty or contains `"*"`; with a
non-empty target list it matches exactly the listed check ids.  Scope
`check` (and any unknown scope) matches iff the check id — and scope
`route` iff the check's route — appears among the trimmed target entries or
`"*"` does. -/
theorem C4_hook_matching (hook : HookExecution) (check : CheckConfig) :
    hookMatchesCheck hook check = true ↔
      (if lowerString (trimString hook.scope) = "global" then
        hook.targetIDs = [] ∨ WildcardIn hook.targetIDs ∨
          TargetIn hook.targetIDs check.id
      else if lowerString (trimString hook.scope) = "route" then
        WildcardIn hook.targetIDs ∨
          TargetIn hook.targetIDs check.notifications.route
      else
        WildcardIn hook.targetIDs ∨ TargetIn hook.targetIDs check.id) := by
  unfold hookMatchesCheck
  split
  · rename_i heq
    rw [if_pos heq]
    by_cases hempty : hook.targetIDs.isEmpty
    · rw [if_pos hempty]
      have : hook.targetIDs = [] := by simpa [List.isEmpty_iff] using hempty
      simp [this]
    · rw [if_neg hempty]
      have htne : hook.targetIDs ≠ [] := by
        simpa [List.isEmpty_iff] using hempty
      rw [Bool.or_eq_true, targetMatches_iff, targetMatches_iff]
      constructor
      · rintro (h | h)
        · rcases h with h | h
          · exact Or.inr (Or.inl h)
          · rcases h with ⟨-, t, ht, hstar⟩
            exact Or.inr (Or.inl ⟨t, ht, hstar⟩)
        · rcases h with h | h
          · exact Or.inr (Or.inl h)
          · exact Or.inr (Or.inr h)
      · rintro (h | h | h)
        · exact absurd h htne
        · exact Or.inl (Or.inl h)
        · exact Or.inr (Or.inr h)
  · rename_i heq
    rw [if_neg (by rw [heq]; decide), if_neg (by rw [heq]; decide)]
    rw [targetMatches_iff]
  · rename_i heq
    rw [if_neg (by rw [heq]; decide), if_pos heq]
    rw [targetMatches_iff]
  · rename_i h1 h2 h3
    rw [if_neg h1, if_neg h3]
    rw [targetMatches_iff]

/-! ## Claims C5 and C6: hook invocation -/

/-- The `InvokeOptions` that `App.handleHook` builds from a request:
duration precedence body `duration` > `duration_seconds`, `requested_by`
falling back to the hook's `owner` metadata and then the client IP. -/
def invokeOptionsOf (cfg : HookConfig) (payload : HookRequestPayload)
    (clientIP : String) : InvokeOptions :=
  let r1 := if payload.requestedBy = "" then (getParam cfg.metadata "owner").getD ""
    else payload.requestedBy
  { durationOverride := durationOverrideOf payload
    untilFirstSuccess := payload.untilFirstSuccess
    note := payload.note
    requestedBy := if r1 = "" then clientIP else r1
    requestedFromIP := clientIP
    additionalMetadata := payload.metadata }

/-- The requested duration in the claim's vocabulary: explicit body
duration, else `duration_seconds`, else the config duration (zero when
unset). -/
def requestedDurationOf (cfg : HookConfig) (payload : HookRequestPayload) : Int :=
  match payload.duration with
  | some d => d
  | none =>
    match payload.durationSeconds with
    | some s => s * 1000000000
    | none =>
      match cfg.action.duration with
      | some d => if d.set then d.duration else 0
      | none => 0

/-- The effective maximum duration: the config `max_duration` when set,
else the manager default of 24 hours. -/
def maxDurationOf (cfg : HookConfig) : Int :=
  match cfg.action.maxDuration with
  | some m => if m.set then m.duration else defaultMaxDuration
  | none => defaultMaxDuration

/-- The field `active_until` exactly as claim C5 words it:
`requested_at + clamp(requested_duration, 0, max_duration)`, omitted when
the clamp result is zero. -/
def claimC5ActiveUntil (cfg : HookConfig) (payload : HookRequestPayload)
    (requestedAt : Int) : Option Int :=
  let clamped := max 0 (min (requestedDurationOf cfg payload) (maxDurationOf cfg))
  if clamped = 0 then none else some (requestedAt + clamped)

/-- The field `active_until` with the correction the code forces: the upper clamp at
`max_duration` applies only when that maximum is positive; a `max_duration`
explicitly set to zero (or negative) disables the cap instead of forcing
the duration to zero. -/
def amendedC5ActiveUntil (cfg : HookConfig) (payload : HookRequestPayload)
    (requestedAt : Int) : Option Int :=
  let clamped := max 0
    (if 0 < maxDurationOf cfg then
      min (requestedDurationOf cfg payload) (maxDurationOf cfg)
    else requestedDurationOf cfg payload)
  if clamped = 0 then none else some (requestedAt + clamped)

/-- Model of `resolveDuration` through `handleHook`'s options is the positive part
of the requested duration, capped at the max duration when that is
positive. -/
theorem resolveDuration_eq (cfg : HookConfig) (payload : HookRequestPayload)
    (clientIP : String) :
    resolveDuration cfg (invokeOptionsOf cfg payload clientIP) defaultMaxDuration =
      max 0
        (if 0 < maxDurationOf cfg then
          min (requestedDurationOf cfg payload) (maxDurationOf cfg)
        else requestedDurationOf cfg payload) := by
  unfold resolveDuration invokeOptionsOf durationOverrideOf requestedDurationOf
    maxDurationOf
  rcases hpd : payload.duration with _ | d <;>
    rcases hps : payload.durationSeconds with _ | s <;>
      rcases hcd : cfg.action.duration with _ | cd <;>
        rcases hmd : cfg.action.maxDuration with _ | md <;>
          simp only [Option.map_none', Option.map_some', defaultMaxDuration] <;>
            split_ifs <;> omega

/-- C5: counterexample to the claim as stated.  A hook whose config sets
`max_duration: 0s` and a request overriding the duration to one hour: the
claim's `clamp(duration, 0, max_duration)` is zero, so `active_until`
should be omitted — but the stored execution carries
`active_until = requested_at + 1h`, because the code skips the cap when
`max_duration ≤ 0`. -/
theorem C5_claim_counterexample :
    let cfg : HookConfig :=
      { id := "pause-maintenance",
        action := { kind := "pause_notifications", scope := "global",
                    targetIDs := [], duration := none,
                    maxDuration := some ⟨0, true⟩, untilFirstSuccess := false,
                    parameters := [] }
        metadata := [] }
    let payload : HookRequestPayload :=
      { duration := some 3600000000000, durationSeconds := none,
        untilFirstSuccess := none, note := "", requestedBy := "",
        metadata := [] }
    (invokeExecution cfg (invokeOptionsOf cfg payload "10.0.0.9") 500
        defaultMaxDuration).activeUntil = some (500 + 3600000000000) ∧
      claimC5ActiveUntil cfg payload 500 = none := by
  decide

/-- C5: the claim amended as the code forces: the stored `active_until` is
`requested_at + d` where `d` is the requested duration (body `duration` >
`duration_seconds` > config duration) floored at zero and capped at the
effective `max_duration` (config value when set, 24h default) only when
that maximum is positive; `active_until` is omitted when `d` is zero. -/
theorem C5_active_until (cfg : HookConfig) (payload : HookRequestPayload)
    (clientIP : String) (now : Int) :
    (invokeExecution cfg (invokeOptionsOf cfg payload clientIP) now
        defaultMaxDuration).activeUntil =
      amendedC5ActiveUntil cfg payload now ∧
    (invokeExecution cfg (invokeOptionsOf cfg payload clientIP) now
        defaultMaxDuration).requestedAt = now := by
  refine ⟨?_, rfl⟩
  show (let duration := resolveDuration cfg (invokeOptionsOf cfg payload clientIP)
          defaultMaxDuration
        if 0 < duration then some (now + duration) else none) =
    amendedC5ActiveUntil cfg payload now
  rw [resolveDuration_eq cfg payload clientIP]
  unfold amendedC5ActiveUntil
  simp only []
  split_ifs <;> first
    | rfl
    | omega

/-- C6: confirmed.  The stored `until_first_success` is the config flag
or-ed with a request override of `true`: a config-required `true` can never
be relaxed by a request, while a request can strengthen a config `false`
to `true`. -/
theorem C6_until_first_success (cfg : HookConfig) (opts : InvokeOptions)
    (now fallbackMax : Int) :
    (invokeExecution cfg opts now fallbackMax).untilFirstSuccess =
      (cfg.action.untilFirstSuccess || opts.untilFirstSuccess == some true) := by
  show (match opts.untilFirstSuccess with
    | some b =>
      if cfg.action.untilFirstSuccess ∧ ¬b then cfg.action.untilFirstSuccess
      else b
    | none => cfg.action.untilFirstSuccess) = _
  match hopt : opts.untilFirstSuccess with
  | none => simp
  | some b =>
    cases hb : b <;> cases hc : cfg.action.untilFirstSuccess <;> simp

/-! ## Claim C7: retention bounds -/

/-- Filtering a key-nodup list down to the keys of its `k`-suffix recovers
exactly that suffix. -/
theorem filter_keyMem_drop {α β : Type} [DecidableEq β] (key : α → β)
    (l : List α) (k : Nat) (h : (l.map key).Nodup) :
    l.filter (fun x => ((l.drop k).map key).contains (key x)) = l.drop k := by
  have hsplit : l.map key = (l.take k).map key ++ (l.drop k).map key := by
    rw [← List.map_append, List.take_append_drop]
  rw [hsplit] at h
  obtain ⟨-, -, hdisj⟩ := List.nodup_append.mp h
  have htake :
      (l.take k).filter
        (fun x => ((l.drop k).map key).contains (key x)) = [] := by
    rw [List.filter_eq_nil_iff]
    intro a ha hcon
    have hmem : key a ∈ (l.drop k).map key := List.elem_iff.mp hcon
    exact hdisj (List.mem_map_of_mem key ha) hmem
  have hdrop :
      (l.drop k).filter
        (fun x => ((l.drop k).map key).contains (key x)) = l.drop k := by
    rw [List.filter_eq_self]
    intro a ha
    exact List.elem_iff.mpr (List.mem_map_of_mem key ha)
  have hmain :
      (l.take k ++ l.drop k).filter
          (fun x => ((l.drop k).map key).contains (key x)) = l.drop k := by
    rw [List.filter_append, htake, hdrop, List.nil_append]
  rw [List.take_append_drop] at hmain
  exact hmain

/-- In a list strictly sorted on `key`, an element of the length-`k` prefix
has at least `l.length − k` strictly larger keys in the list. -/
theorem sorted_take_filter_length {α : Type} (key : α → Nat) (l : List α)
    (hs : l.Pairwise (fun a b => key a < key b)) (k : Nat) (r : α)
    (hr : r ∈ l.take k) :
    l.length - k ≤ (l.filter (fun q => decide (key r < key q))).length := by
  induction l generalizing k with
  | nil => simp at hr
  | cons x xs ih =>
    match k with
    | 0 => simp at hr
    | k + 1 =>
      obtain ⟨hhead, htail⟩ := List.pairwise_cons.mp hs
      rw [List.take_succ_cons] at hr
      rcases List.mem_cons.mp hr with heq | hmem
      · subst heq
        have hall : xs.filter (fun q => decide (key r < key q)) = xs := by
          rw [List.filter_eq_self]
          intro a ha
          exact decide_eq_true (hhead a ha)
        rw [List.filter_cons]
        have hxf : ¬(decide (key r < key r) = true) := by simp
        rw [if_neg hxf, hall]
        simp only [List.length_cons]
        omega
      · have hle := ih htail k hmem
        rw [List.filter_cons]
        simp only [List.length_cons]
        split
        · simp only [List.length_cons]
          omega
        · omega

/-- Well-formedness of the `check_states` table: rows in insertion order
with strictly increasing ids, all below the autoincrement counter. -/
def CheckStatesWF (tbl : CheckStatesTable) : Prop :=
  tbl.rows.Pairwise (fun a b => a.id < b.id) ∧ ∀ r ∈ tbl.rows, r.id < tbl.nextId

/-- Well-formedness of the `notification_logs` table. -/
def NotificationLogsWF (tbl : NotificationLogsTable) : Prop :=
  tbl.rows.Pairwise (fun a b => a.id < b.id) ∧ ∀ r ∈ tbl.rows, r.id < tbl.nextId

/-- A strictly id-sorted row list has nodup ids. -/
theorem pairwise_id_nodup {α : Type} (key : α → Nat) (l : List α)
    (h : l.Pairwise (fun a b => key a < key b)) : (l.map key).Nodup := by
  have : (l.map key).Pairwise (fun a b => a ≠ b) := by
    rw [List.pairwise_map]
    exact h.imp (fun hab => Nat.ne_of_lt hab)
  exact this

/-- Appending the fresh row preserves the strict id order. -/
theorem checkRows_append_sorted (tbl : CheckStatesTable) (run : CheckRun)
    (hwf : CheckStatesWF tbl) :
    (tbl.rows ++ [insertedCheckRow tbl run]).Pairwise
      (fun a b => a.id < b.id) := by
  rw [List.pairwise_append]
  refine ⟨hwf.1, List.pairwise_singleton _ _, ?_⟩
  intro a ha b hb
  rw [List.mem_singleton] at hb
  subst hb
  exact hwf.2 a ha

/-- The check-id rows of the table after `RecordCheckRun` are exactly the
newest `limit` rows of that check id after the insert. -/
theorem recordCheckRun_cid_rows (limit : Nat) (tbl : CheckStatesTable)
    (run : CheckRun) (hwf : CheckStatesWF tbl) :
    (recordCheckRun limit tbl run).rows.filter
        (fun r => r.checkID == run.checkID) =
      (let rows := tbl.rows ++ [insertedCheckRow tbl run]
       let cidRows := rows.filter (fun r => r.checkID == run.checkID)
       cidRows.drop (cidRows.length - limit)) := by
  unfold recordCheckRun
  simp only []
  set rows := tbl.rows ++ [insertedCheckRow tbl run] with hrows
  set cidRows := rows.filter (fun r => r.checkID == run.checkID) with hcidRows
  rw [List.filter_filter]
  have hcongr : ∀ a ∈ rows,
      ((a.checkID == run.checkID) &&
        (a.checkID != run.checkID ||
          ((cidRows.drop (cidRows.length - limit)).map (·.id)).contains a.id)) =
      ((((cidRows.drop (cidRows.length - limit)).map (·.id)).contains a.id) &&
        (a.checkID == run.checkID)) := by
    intro a _
    cases hcid : (a.checkID == run.checkID) <;> simp [bne, hcid]
  rw [List.filter_congr hcongr, ← List.filter_filter]
  have hsorted := checkRows_append_sorted tbl run hwf
  rw [← hrows] at hsorted
  have hcidSorted : cidRows.Pairwise (fun a b => a.id < b.id) :=
    List.Pairwise.sublist (List.filter_sublist _) hsorted
  exact filter_keyMem_drop (·.id) cidRows (cidRows.length - limit)
    (pairwise_id_nodup _ _ hcidSorted)

/-- Model of `RecordCheckRun` leaves other checks' rows exactly as they were. -/
theorem recordCheckRun_other (limit : Nat) (tbl : CheckStatesTable)
    (run : CheckRun) (cid : String) (hne : cid ≠ run.checkID) :
    (recordCheckRun limit tbl run).rows.filter (fun r => r.checkID == cid) =
      tbl.rows.filter (fun r => r.checkID == cid) := by
  unfold recordCheckRun
  simp only []
  rw [List.filter_filter]
  have hcongr : ∀ a ∈ tbl.rows ++ [insertedCheckRow tbl run],
      ((a.checkID == cid) &&
        (a.checkID != run.checkID ||
          (((((tbl.rows ++ [insertedCheckRow tbl run]).filter
              (fun r => r.checkID == run.checkID)).drop
            (((tbl.rows ++ [insertedCheckRow tbl run]).filter
                (fun r => r.checkID == run.checkID)).length - limit)).map
            (·.id)).contains a.id))) =
      (a.checkID == cid) := by
    intro a _
    cases hcid : (a.checkID == cid)
    · simp
    · have : a.checkID = cid := by simpa using hcid
      have hne' : (a.checkID == run.checkID) = false := by
        simp [this]
        exact hne
      simp [bne, hne']
  rw [List.filter_congr hcongr]
  rw [List.filter_append]
  have hlast : ([insertedCheckRow tbl run].filter (fun r => r.checkID == cid)) = [] := by
    simp [insertedCheckRow]
    exact fun h => absurd h.symm hne
  rw [hlast, List.append_nil]

/-- Model of `RecordCheckRun` preserves table well-formedness. -/
theorem recordCheckRun_wf (limit : Nat) (tbl : CheckStatesTable)
    (run : CheckRun) (hwf : CheckStatesWF tbl) :
    CheckStatesWF (recordCheckRun limit tbl run) := by
  have hsorted := checkRows_append_sorted tbl run hwf
  constructor
  · exact List.Pairwise.sublist (List.filter_sublist _) hsorted
  · intro r hr
    have hr' : r ∈ tbl.rows ++ [insertedCheckRow tbl run] :=
      List.mem_of_mem_filter hr
    rcases List.mem_append.mp hr' with h | h
    · have := hwf.2 r h
      show r.id < tbl.nextId + 1
      omega
    · rw [List.mem_singleton] at h
      subst h
      show tbl.nextId < tbl.nextId + 1
      omega

/-- After any sequence of committed `RecordCheckRun` transactions from a
fresh store the table is well-formed and every check's row count is within
the retention limit. -/
theorem applyCheckRuns_invariant (limit : Nat) (runs : List CheckRun) :
    CheckStatesWF (applyCheckRuns limit runs) ∧
      ∀ cid, ((applyCheckRuns limit runs).rows.filter
          (fun r => r.checkID == cid)).length ≤ limit := by
  suffices h : ∀ (tbl : CheckStatesTable), CheckStatesWF tbl →
      (∀ cid, (tbl.rows.filter (fun r => r.checkID == cid)).length ≤ limit) →
      CheckStatesWF (runs.foldl (recordCheckRun limit) tbl) ∧
        ∀ cid, ((runs.foldl (recordCheckRun limit) tbl).rows.filter
            (fun r => r.checkID == cid)).length ≤ limit by
    exact h emptyCheckStates ⟨List.Pairwise.nil, by simp [emptyCheckStates]⟩
      (by simp [emptyCheckStates])
  induction runs with
  | nil => intro tbl hwf hcount; exact ⟨hwf, hcount⟩
  | cons run rest ih =>
    intro tbl hwf hcount
    refine ih (recordCheckRun limit tbl run) (recordCheckRun_wf limit tbl run hwf) ?_
    intro cid
    by_cases hcid : cid = run.checkID
    · subst hcid
      rw [recordCheckRun_cid_rows limit tbl run hwf]
      simp only [List.length_drop]
      omega
    · rw [recordCheckRun_other limit tbl run cid hcid]
      exact hcount cid

/-- A row within retention survives `RecordCheckRun`: if fewer than
`limit − 1` stored rows of the same check are newer than it (so that, the
fresh insert included, it is still among the `limit` newest), it is kept. -/
theorem recordCheckRun_survival (limit : Nat) (tbl : CheckStatesTable)
    (run : CheckRun) (hwf : CheckStatesWF tbl) (r : CheckStateRow)
    (hr : r ∈ tbl.rows) (hcid : r.checkID = run.checkID)
    (hrank : (tbl.rows.filter
        (fun q => q.checkID == run.checkID && decide (r.id < q.id))).length + 1
      < limit) :
    r ∈ (recordCheckRun limit tbl run).rows := by
  have hsorted := checkRows_append_sorted tbl run hwf
  unfold recordCheckRun
  simp only []
  set rows := tbl.rows ++ [insertedCheckRow tbl run] with hrows
  set cidRows := rows.filter (fun r => r.checkID == run.checkID) with hcidRows
  have hcidSorted : cidRows.Pairwise (fun a b => a.id < b.id) :=
    List.Pairwise.sublist (List.filter_sublist _) hsorted
  have hrmem : r ∈ rows := List.mem_append.mpr (Or.inl hr)
  have hrcid : r ∈ cidRows := by
    rw [hcidRows]
    exact List.mem_filter.mpr ⟨hrmem, by simp [hcid]⟩
  have hnewer :
      (cidRows.filter (fun q => decide (r.id < q.id))).length =
        (tbl.rows.filter
          (fun q => q.checkID == run.checkID && decide (r.id < q.id))).length
          + 1 := by
    rw [hcidRows, List.filter_filter, hrows, List.filter_append]
    have hid : r.id < tbl.nextId := hwf.2 r hr
    have hsingle :
        [insertedCheckRow tbl run].filter
          (fun a => decide (r.id < a.id) && (a.checkID == run.checkID)) =
        [insertedCheckRow tbl run] := by
      simp [insertedCheckRow, hid]
    rw [hsingle, List.length_append, List.length_singleton]
    congr 1
    apply congrArg
    exact List.filter_congr (fun a _ => Bool.and_comm _ _)
  refine List.mem_filter.mpr ⟨hrmem, ?_⟩
  have hdrop : r ∈ cidRows.drop (cidRows.length - limit) := by
    by_cases hk : cidRows.length ≤ limit
    · rw [Nat.sub_eq_zero_of_le hk, List.drop_zero]
      exact hrcid
    · by_contra hnot
      have htake : r ∈ cidRows.take (cidRows.length - limit) := by
        have hsplit := List.take_append_drop (cidRows.length - limit) cidRows
        rcases List.mem_append.mp (by rw [hsplit]; exact hrcid) with h | h
        · exact h
        · exact absurd h hnot
      have hge : cidRows.length - (cidRows.length - limit) ≤
          (cidRows.filter (fun q => decide (r.id < q.id))).length :=
        sorted_take_filter_length (fun q => q.id) cidRows hcidSorted
          (cidRows.length - limit) r htake
      rw [hnewer] at hge
      omega
  have hcontains :
      (((cidRows.drop (cidRows.length - limit)).map (·.id)).contains r.id)
        = true :=
    List.elem_iff.mpr (List.mem_map_of_mem _ hdrop)
  rw [Bool.or_eq_true]
  right
  exact hcontains

/-- Appending the fresh log row preserves the strict id order. -/
theorem logRows_append_sorted (tbl : NotificationLogsTable)
    (log : NotificationLog) (hwf : NotificationLogsWF tbl) :
    (tbl.rows ++ [insertedLogRow tbl log]).Pairwise
      (fun a b => a.id < b.id) := by
  rw [List.pairwise_append]
  refine ⟨hwf.1, List.pairwise_singleton _ _, ?_⟩
  intro a ha b hb
  rw [List.mem_singleton] at hb
  subst hb
  exact hwf.2 a ha

/-- The rows after `RecordNotification` are exactly the newest `limit`
rows after the insert. -/
theorem recordNotification_rows (limit : Nat) (tbl : NotificationLogsTable)
    (log : NotificationLog) (hwf : NotificationLogsWF tbl) :
    (recordNotification limit tbl log).rows =
      (tbl.rows ++ [insertedLogRow tbl log]).drop
        ((tbl.rows ++ [insertedLogRow tbl log]).length - limit) := by
  unfold recordNotification
  simp only []
  exact filter_keyMem_drop (fun r : NotificationLogRow => r.id) _ _
    (pairwise_id_nodup _ _ (logRows_append_sorted tbl log hwf))

/-- Model of `RecordNotification` preserves table well-formedness. -/
theorem recordNotification_wf (limit : Nat) (tbl : NotificationLogsTable)
    (log : NotificationLog) (hwf : NotificationLogsWF tbl) :
    NotificationLogsWF (recordNotification limit tbl log) := by
  have hsorted := logRows_append_sorted tbl log hwf
  constructor
  · rw [recordNotification_rows limit tbl log hwf]
    exact List.Pairwise.sublist (List.drop_sublist _ _) hsorted
  · intro r hr
    rw [recordNotification_rows limit tbl log hwf] at hr
    have hr' : r ∈ tbl.rows ++ [insertedLogRow tbl log] :=
      List.mem_of_mem_drop hr
    rcases List.mem_append.mp hr' with h | h
    · have := hwf.2 r h
      show r.id < tbl.nextId + 1
      omega
    · rw [List.mem_singleton] at h
      subst h
      show tbl.nextId < tbl.nextId + 1
      omega

/-- After any sequence of committed `RecordNotification` transactions from
a fresh store the log table is well-formed and globally bounded by the
retention limit. -/
theorem applyNotifications_invariant (limit : Nat) (logs : List NotificationLog) :
    NotificationLogsWF (applyNotifications limit logs) ∧
      (applyNotifications limit logs).rows.length ≤ limit := by
  suffices h : ∀ (tbl : NotificationLogsTable), NotificationLogsWF tbl →
      tbl.rows.length ≤ limit →
      NotificationLogsWF (logs.foldl (recordNotification limit) tbl) ∧
        (logs.foldl (recordNotification limit) tbl).rows.length ≤ limit by
    exact h emptyNotificationLogs
      ⟨List.Pairwise.nil, by simp [emptyNotificationLogs]⟩
      (by simp [emptyNotificationLogs])
  induction logs with
  | nil => intro tbl hwf hcount; exact ⟨hwf, hcount⟩
  | cons log rest ih =>
    intro tbl hwf hcount
    refine ih (recordNotification limit tbl log)
      (recordNotification_wf limit tbl log hwf) ?_
    rw [recordNotification_rows limit tbl log hwf]
    simp only [List.length_drop]
    omega

/-- C7: confirmed.  With the retention limits of `NewStore` (configured
value when positive, else 30 per check / 100 globally): after any number of
committed `RecordCheckRun` transactions every check holds at most the
check-state limit of rows, after any number of committed
`RecordNotification` transactions the log holds at most the notification
limit of rows; a `RecordCheckRun` never touches other checks' rows, and it
never erases a row still within retention (one that, counting the fresh
insert, is still among the limit newest of its check).  Insert and prune
are a single transaction: each is one atomic table transformation. -/
theorem C7_retention_bounds (checkRaw notifRaw : Int) :
    (∀ (runs : List CheckRun) (cid : String),
      ((applyCheckRuns (effectiveCheckLimit checkRaw) runs).rows.filter
          (fun r => r.checkID == cid)).length ≤ effectiveCheckLimit checkRaw) ∧
    (∀ logs : List NotificationLog,
      (applyNotifications (effectiveNotificationLimit notifRaw) logs).rows.length
        ≤ effectiveNotificationLimit notifRaw) ∧
    (∀ (tbl : CheckStatesTable) (run : CheckRun) (cid : String),
      cid ≠ run.checkID →
      (recordCheckRun (effectiveCheckLimit checkRaw) tbl run).rows.filter
          (fun r => r.checkID == cid) =
        tbl.rows.filter (fun r => r.checkID == cid)) ∧
    (∀ (tbl : CheckStatesTable) (run : CheckRun) (r : CheckStateRow),
      CheckStatesWF tbl → r ∈ tbl.rows → r.checkID = run.checkID →
      (tbl.rows.filter
          (fun q => q.checkID == run.checkID && decide (r.id < q.id))).length + 1
        < effectiveCheckLimit checkRaw →
      r ∈ (recordCheckRun (effectiveCheckLimit checkRaw) tbl run).rows) :=
  ⟨fun runs cid => (applyCheckRuns_invariant (effectiveCheckLimit checkRaw) runs).2 cid,
   fun logs => (applyNotifications_invariant (effectiveNotificationLimit notifRaw) logs).2,
   fun tbl run cid hne => recordCheckRun_other (effectiveCheckLimit checkRaw) tbl run cid hne,
   fun tbl run r hwf hr hcid hrank =>
     recordCheckRun_survival (effectiveCheckLimit checkRaw) tbl run hwf r hr hcid hrank⟩

/-- A check run for the C7 witness instance. -/
def c7Run : CheckRun :=
  { checkID := "api", checkName := "API", success := false,
    summary := "timeout", error := "deadline exceeded", latencyMs := 900,
    occurredAt := 10 }

/-- A stored row for the C7 witness instance. -/
def c7Row : CheckStateRow :=
  { id := 0, checkID := "api", checkName := "API", success := true,
    summary := "ok", error := "", latencyMs := 30, occurredAt := 5 }

/-- A one-row well-formed table for the C7 witness instance. -/
def c7Table : CheckStatesTable := { rows := [c7Row], nextId := 1 }

/-- C7: witness — the bound after two inserts and the survival of a row
within retention, at the default limits. -/
theorem C7_retention_bounds_witness :
    (((applyCheckRuns (effectiveCheckLimit 0) [c7Run, c7Run]).rows.filter
        (fun r => r.checkID == "api")).length ≤ effectiveCheckLimit 0) ∧
      c7Row ∈ (recordCheckRun (effectiveCheckLimit 0) c7Table c7Run).rows :=
  ⟨(C7_retention_bounds 0 0).1 [c7Run, c7Run] "api",
   (C7_retention_bounds 0 0).2.2.2 c7Table c7Run c7Row
     ⟨by decide, by decide⟩ (by decide) (by decide) (by decide)⟩

/-! ## Claim C8: metrics freshness gate -/

/-- C8: counterexample to the claim as stated.  A metrics check that sets
`max_age` but configures no thresholds hits the `no metrics thresholds
configured` guard before the freshness gate: with a stale snapshot its
result carries no assertion results at all, not the single `freshness`
failure the claim requires. -/
theorem C8_claim_counterexample :
    let cfg : CheckConfig :=
      { id := "node-metrics", name := "Node metrics", target := "node-1",
        schedule := none, thresholds := ⟨none⟩,
        notifications := ⟨"standard", none⟩,
        metrics := some { nodeID := "node-1", maxAge := some ⟨60, true⟩,
                          thresholds := [] } }
    let res := runMetrics (fun _ : String => (Except.ok () : Except String Unit))
      (fun _ t => ⟨t.name, t.op, "", false, ""⟩) true 100 cfg
      (Except.ok (some ⟨"node_load1 0.5", 0⟩))
    (cfg.metrics.map (fun s => s.maxAge)).isSome = true ∧
      res.assertionResults = [] ∧ res.error.isSome = true := by
  decide

/-- C8: the claim amended as the code forces — restricted to a metrics
check that passes the configuration guards (at least one threshold, a
resolvable node id, a loaded snapshot): when the snapshot is stale
(`ingested_at` zero or older than `max_age`) the result is exactly one
failed `freshness` assertion and is unsuccessful; otherwise every
configured threshold is evaluated to exactly one assertion result each,
provided the payload parses (a parse failure yields an error result with
no assertion results, which the original claim did not allow for). -/
theorem C8_freshness_gate {Fam : Type} (parse : String → Except String Fam)
    (evalThreshold : Fam → MetricThreshold → AssertionResult)
    (now : Int) (cfg : CheckConfig) (spec : MetricsSpec)
    (ma : NullableDuration) (snapshot : NodeSnapshot)
    (hspec : cfg.metrics = some spec)
    (hthr : spec.thresholds ≠ [])
    (hma : spec.maxAge = some ma) (hset : ma.set = true)
    (hnode : ¬(trimString spec.nodeID = "" ∧ trimString cfg.target = "")) :
    ((snapshot.ingestedAt = 0 ∨ ma.duration < now - snapshot.ingestedAt) →
      (runMetrics parse evalThreshold true now cfg
          (Except.ok (some snapshot))).assertionResults =
          [⟨"freshness", "max_age", "", false, "metrics older than max_age"⟩] ∧
        (runMetrics parse evalThreshold true now cfg
          (Except.ok (some snapshot))).success = false) ∧
    (¬(snapshot.ingestedAt = 0 ∨ ma.duration < now - snapshot.ingestedAt) →
      ∀ fam, parse snapshot.payload = Except.ok fam →
        (runMetrics parse evalThreshold true now cfg
            (Except.ok (some snapshot))).assertionResults =
            spec.thresholds.map (evalThreshold fam) ∧
          (runMetrics parse evalThreshold true now cfg
            (Except.ok (some snapshot))).success =
            (spec.thresholds.map (evalThreshold fam)).all (·.passed)) := by
  have hrun :
      runMetrics parse evalThreshold true now cfg (Except.ok (some snapshot)) =
        (if (snapshot.ingestedAt == 0
              || decide (ma.duration < now - snapshot.ingestedAt)) then
          ⟨false, none,
            [⟨"freshness", "max_age", "", false, "metrics older than max_age"⟩]⟩
        else
          match parse snapshot.payload with
          | .error e => ⟨false, some ("parse metrics payload: " ++ e), []⟩
          | .ok families =>
            ⟨(spec.thresholds.map (evalThreshold families)).all (·.passed),
              none, spec.thresholds.map (evalThreshold families)⟩) := by
    unfold runMetrics
    rw [hspec]
    simp only [not_true, if_neg (by simp : ¬(¬true = true))]
    rw [if_neg (by simpa [List.isEmpty_iff] using hthr)]
    have hnid :
        (if trimString spec.nodeID ≠ "" then trimString spec.nodeID
          else trimString cfg.target) ≠ "" := by
      by_cases h : trimString spec.nodeID = ""
      · rw [if_neg (by simpa using h)]
        intro hc
        exact hnode ⟨h, hc⟩
      · rw [if_pos h]
        exact h
    rw [if_neg hnid]
    rw [hma]
    simp only [hset, Bool.true_and]
    rw [if_neg (show ¬(spec.thresholds.isEmpty = true) by
      simpa [List.isEmpty_iff] using hthr)]
  constructor
  · intro hstale
    have hcond : (snapshot.ingestedAt == 0
        || decide (ma.duration < now - snapshot.ingestedAt)) = true := by
      rcases hstale with h | h
      · simp [h]
      · simp [h]
    rw [hrun, if_pos hcond]
    exact ⟨rfl, rfl⟩
  · intro hfresh fam hparse
    have hcond : ¬((snapshot.ingestedAt == 0
        || decide (ma.duration < now - snapshot.ingestedAt)) = true) := by
      simp only [Bool.or_eq_true, beq_iff_eq, decide_eq_true_eq]
      exact hfresh
    rw [hrun, if_neg hcond, hparse]
    exact ⟨rfl, rfl⟩

/-- The metrics check configuration of the C8 witness instance. -/
def c8Check : CheckConfig :=
  { id := "node-metrics", name := "Node metrics", target := "",
    schedule := none, thresholds := ⟨none⟩,
    notifications := ⟨"standard", none⟩,
    metrics := some { nodeID := "node-1", maxAge := some ⟨60, true⟩,
                      thresholds := [⟨"node_load1", "less_than", []⟩] } }

/-- C8: witness — the freshness failure on a zero `ingested_at` snapshot. -/
theorem C8_freshness_gate_witness :
    ((0 : Int) = 0 ∨ (60 : Int) < 100 - 0) ∧
      (runMetrics (fun _ : String => (Except.ok () : Except String Unit))
          (fun _ t => ⟨t.name, t.op, "", true, ""⟩) true 100 c8Check
          (Except.ok (some ⟨"node_load1 0.5", 0⟩))).assertionResults =
        [⟨"freshness", "max_age", "", false, "metrics older than max_age"⟩] :=
  ⟨Or.inl rfl,
   ((C8_freshness_gate (fun _ : String => (Except.ok () : Except String Unit))
      (fun _ t => ⟨t.name, t.op, "", true, ""⟩) 100 c8Check
      { nodeID := "node-1", maxAge := some ⟨60, true⟩,
        thresholds := [⟨"node_load1", "less_than", []⟩] }
      ⟨60, true⟩ ⟨"node_load1 0.5", 0⟩ rfl (by decide) rfl rfl
      (by decide)).1 (Or.inl rfl)).1⟩

/-! ## Claim C9: effective interval -/

/-- The per-check schedule interval override, when set. -/
def scheduleInterval (check : CheckConfig) : Option Int :=
  match check.schedule with
  | some s =>
    match s.interval with
    | some i => if i.set then some i.duration else none
    | none => none
  | none => none

/-- C9: counterexample to the claim as stated.  With no per-check override
and a zero service default, the worker's `effectiveInterval` returns zero —
it is passed straight to the ticker — rather than the claimed 60-second
fallback (which exists only in the server's handlers). -/
theorem C9_claim_counterexample :
    let defaults : ServiceDefault := { interval := 0, timeout := 0,
                                       retries := 0, backoff := 0 }
    let check : CheckConfig :=
      { id := "ping", name := "Ping", target := "", schedule := none,
        thresholds := ⟨none⟩, notifications := ⟨"standard", none⟩,
        metrics := none }
    Runner.effectiveInterval defaults check = 0 ∧
      Runner.effectiveInterval defaults check ≠ 60000000000 := by
  decide

/-- C9: the claim amended as the code forces.  Everywhere, the effective
interval is the per-check override when set, otherwise the service
default.  The 60-second fallback for an unset/zero result exists only on
the server side (health evaluation and per-check metrics rendering); the
worker scheduler uses the resulting value as-is. -/
theorem C9_effective_interval (defaults : ServiceDefault) (check : CheckConfig) :
    Runner.effectiveInterval defaults check =
      (match scheduleInterval check with
       | some v => v
       | none => defaults.interval) ∧
    App.intervalUsed defaults check =
      (match scheduleInterval check with
       | some v => if v ≤ 0 then 60000000000 else v
       | none =>
         if defaults.interval ≤ 0 then 60000000000
         else defaults.interval) := by
  unfold Runner.effectiveInterval App.intervalUsed App.effectiveInterval
    scheduleInterval
  rcases hs : check.schedule with _ | s
  · simp only []
    refine ⟨by trivial, ?_⟩
    split_ifs <;> omega
  · simp only []
    rcases hi : s.interval with _ | i
    · simp only []
      refine ⟨by trivial, ?_⟩
      split_ifs <;> omega
    · simp only []
      by_cases hset : i.set = true
      · simp only [hset, if_true]
        exact ⟨by trivial, by trivial⟩
      · simp only [if_neg hset]
        refine ⟨by trivial, ?_⟩
        split_ifs <;> omega

/-! ## Claim C10: hook-cache failure window -/

/-- A pause hook sitting in the store during the C10 witness scenario. -/
def c10StoreHook : HookExecution :=
  { id := 3, hookID := "pause-ping", kind := "pause_notifications",
    scope := "check", targetIDs := ["ping"], requestedBy := "ops",
    requestedFromIP := "10.0.0.2", requestedAt := 0, activeUntil := none,
    untilFirstSuccess := false, parameters := [], note := "",
    status := "active" }

/-- C10: confirmed.  When the active-hook query fails on a cache miss, the
worker caches the empty hook set with a five-second expiry and returns no
hooks; until that expiry every fetch serves the empty cache regardless of
what the store now holds, and with no hooks no pause suppression applies to
any check. -/
theorem C10_hook_fetch_error (st : HookCache) (e : String) (wallNow : Int)
    (hmiss : ¬(st.expiry ≠ 0 ∧ wallNow < st.expiry)) (hpos : 0 ≤ wallNow) :
    fetchActiveHooks true (Except.error e) wallNow st =
      (⟨[], wallNow + hookCacheTTL⟩, []) ∧
    (∀ (res : Except String (List HookExecution)) (now2 : Int),
      now2 < wallNow + hookCacheTTL →
      fetchActiveHooks true res now2 ⟨[], wallNow + hookCacheTTL⟩ =
        (⟨[], wallNow + hookCacheTTL⟩, [])) ∧
    (∀ check : CheckConfig, applicablePauseHooks [] check = []) := by
  refine ⟨?_, ?_, fun _ => rfl⟩
  · unfold fetchActiveHooks
    rw [if_neg (by simp)]
    rw [if_neg hmiss]
  · intro res now2 hlt
    unfold fetchActiveHooks
    rw [if_neg (by simp)]
    have hne : wallNow + hookCacheTTL ≠ 0 := by
      unfold hookCacheTTL
      omega
    rw [if_pos ⟨hne, hlt⟩]

/-- C10: witness — a concrete failed fetch followed by a served-from-cache
fetch that hides a matching pause hook present in the store. -/
theorem C10_hook_fetch_error_witness :
    fetchActiveHooks true (Except.error "database is locked") 100 ⟨[], 0⟩ =
      (⟨[], 100 + hookCacheTTL⟩, []) ∧
    fetchActiveHooks true (Except.ok [c10StoreHook]) 101
        ⟨[], 100 + hookCacheTTL⟩ =
      (⟨[], 100 + hookCacheTTL⟩, []) :=
  ⟨(C10_hook_fetch_error ⟨[], 0⟩ "database is locked" 100 (by decide)
      (by decide)).1,
   (C10_hook_fetch_error ⟨[], 0⟩ "database is locked" 100 (by decide)
      (by decide)).2.1 (Except.ok [c10StoreHook]) 101 (by decide)⟩

end UpUpUp
